import Mathlib

set_option maxRecDepth 100000

/-!
Verification of the RAC (Random Access Compression) index reader,
translated from lib/rac/reader.go as a shallow embedding.

Byte buffers are modelled as functions `Nat → Nat` (each value a byte);
Go's `int64` values are modelled as `Int` (all arithmetic in the reader
stays far below 2^63, as the 48-bit pointer reads bound every quantity).
The reader's state struct is threaded explicitly, and the potentially
unbounded descent loop is modelled with fuel: a `none` result means the
loop has not finished within the given fuel.
-/

namespace Rac

/-- A byte buffer indexed by natural offsets.  Models both the RAC file
contents (the `io.ReadSeeker`, assumed to hold `CompressedSize` bytes)
and the reader's 4096-byte scratch node buffer `currNode`. -/
def Buf : Type := Nat → Nat

/-- Modelled from the spec: the three magic bytes `0x72 0xC3 0x63`
(the `magic` constant is declared outside the provided source file). -/
def magic (i : Nat) : Nat := [0x72, 0xC3, 0x63].getD i 0

/-- 48-bit little-endian read (reader.go `u48LE`): eight bytes are read,
combined as a 64-bit little-endian value, and masked to the low 48 bits. -/
def u48LE (b : Buf) (off : Nat) : Int :=
  (((b off + b (off+1) * 2^8 + b (off+2) * 2^16 + b (off+3) * 2^24 +
    b (off+4) * 2^32 + b (off+5) * 2^40 + b (off+6) * 2^48 + b (off+7) * 2^56) % 2^48 : Nat) : Int)

/-- reader.go `bitwiseSubset`: every 1-bit of `inner` is also set in `outer`.
`Codec` is a byte-sized integer, modelled as `Nat`. -/
def bitwiseSubset (outer inner : Nat) : Bool := outer == (outer ||| inner)

/-- reader.go `nodeSize`: the size in CSpace occupied by a node of the
given arity. -/
def nodeSize (a : Nat) : Nat := 16 * a + 16

/-- `rNode.arity`: byte 3 of the node buffer. -/
def arity (b : Buf) : Nat := b 3

/-- `rNode.codec`. -/
def codec (b : Buf) : Nat := b (8 * arity b + 7)

/-- `rNode.cPtrMax`. -/
def cPtrMax (b : Buf) : Int := u48LE b (16 * arity b + 8)

/-- `rNode.dPtrMax`. -/
def dPtrMax (b : Buf) : Int := u48LE b (8 * arity b)

/-- `rNode.version`. -/
def version (b : Buf) : Nat := b (16 * arity b + 14)

/-- `rNode.cLen`. -/
def cLen (b : Buf) (i : Nat) : Nat := b (8*i + (8 * arity b + 14))

/-- `rNode.cOff`. -/
def cOff (b : Buf) (i : Nat) (cBias : Int) : Int :=
  cBias + u48LE b (8*i + (8 * arity b + 8))

/-- `rNode.dOff`. -/
def dOff (b : Buf) (i : Nat) (dBias : Int) : Int :=
  if i = 0 then dBias else dBias + u48LE b (8*i)

/-- `rNode.dSize`. -/
def dSize (b : Buf) (i : Nat) : Int :=
  u48LE b (8*i + 8) - (if i = 0 then 0 else u48LE b (8*i))

/-- `rNode.sTag`. -/
def sTag (b : Buf) (i : Nat) : Nat := b (8*i + (8 * arity b + 15))

/-- `rNode.tTag`. -/
def tTag (b : Buf) (i : Nat) : Nat := b (8*i + 7)

/-- `rNode.isLeaf`: a slot is a leaf unless its tertiary tag is 0xFE. -/
def isLeaf (b : Buf) (i : Nat) : Bool := b (8*i + 7) != 0xFE

/-- One step of the bit-reflected CRC-32/IEEE update (polynomial
0xEDB88320), as computed by Go's `hash/crc32.ChecksumIEEE`. -/
def crcStep (c : Nat) : Nat := if c % 2 = 1 then (c / 2) ^^^ 0xEDB88320 else c / 2

/-- CRC-32/IEEE update by one byte. -/
def crcByte (c b : Nat) : Nat := crcStep^[8] (c ^^^ b % 256)

/-- `crc32.ChecksumIEEE` over a list of bytes. -/
def crc32IEEE (l : List Nat) : Nat := (l.foldl crcByte 0xFFFFFFFF) ^^^ 0xFFFFFFFF

/-- The bytes `b[off .. off+len)` of a buffer, as a list. -/
def bufSlice (b : Buf) (off len : Nat) : List Nat :=
  (List.range len).map fun j => b (off + j)

/-- The node checksum as recomputed by `rNode.valid`: CRC-32/IEEE of bytes
`[6, nodeSize)`, XOR-folded by 16 bits (`checksum ^= checksum >> 16`). -/
def foldedChecksum (b : Buf) : Nat :=
  let c := crc32IEEE (bufSlice b 6 (nodeSize (arity b) - 6))
  c ^^^ (c >>> 16)

/-- `rNode.valid`, magic/arity part: the three magic bytes, a non-zero
arity byte, and the duplicate arity byte at offset `nodeSize-1`. -/
def validHeader (b : Buf) : Bool :=
  b 0 == magic 0 && b 1 == magic 1 && b 2 == magic 2 && b 3 != 0 &&
  b 3 == b (nodeSize (arity b) - 1)

/-- `rNode.valid`, per-slot part: reserved bytes are zero and no TTag value is
in the reserved range [0xC0, 0xFE). -/
def validSlots (b : Buf) : Bool :=
  decide (∀ i < arity b, b (8*i + 6) = 0 ∧ ¬ (0xC0 ≤ b (8*i + 7) ∧ b (8*i + 7) < 0xFE))

/-- `rNode.valid`: the reserved byte before the codec is zero and the codec
byte is non-zero. -/
def validCodec (b : Buf) : Bool :=
  b (8 * arity b + 6) == 0 && b (8 * arity b + 7) != 0

/-- `rNode.valid`: the stored DPtr values (entries 1..arity) are
non-decreasing. -/
def validDPtrs (b : Buf) : Bool :=
  decide (∀ i < arity b + 1, 2 ≤ i → u48LE b (8 * (i-1)) ≤ u48LE b (8 * i))

/-- `rNode.valid`: no CPtr value exceeds CPtrMax (the final CPtr value). -/
def validCPtrs (b : Buf) : Bool :=
  decide (∀ i < arity b, u48LE b (8*i + (8 * arity b + 8)) ≤ cPtrMax b)

/-- `rNode.valid`: the version byte is non-zero. -/
def validVersion (b : Buf) : Bool := version b != 0

/-- `rNode.valid`: the stored 16-bit checksum matches the folded CRC. -/
def validChecksum (b : Buf) : Bool :=
  b 4 == foldedChecksum b % 256 && b 5 == (foldedChecksum b >>> 8) % 256

/-- `rNode.valid`: all structural invariants of a node buffer. -/
def valid (b : Buf) : Bool :=
  validHeader b && validSlots b && validCodec b && validDPtrs b &&
  validCPtrs b && validVersion b && validChecksum b

/-- A half-open `[low, high)` range over CSpace or DSpace (reader.go `Range`). -/
def Range : Type := Int × Int

instance : DecidableEq Range := instDecidableEqProd

/-- A compressed chunk returned by the Reader (reader.go `Chunk`). -/
structure Chunk where
  DRange : Range
  CPrimary : Range
  CSecondary : Range
  CTertiary : Range
  STag : Nat
  TTag : Nat
  Codec : Nat
deriving DecidableEq

/-- `rNode.cOffRange`. -/
def cOffRange (b : Buf) (i : Nat) (cBias : Int) : Range :=
  let m := cBias + cPtrMax b
  if arity b ≤ i then (m, m)
  else
    let cO := cOff b i cBias
    let m' := if cLen b i ≠ 0 ∧ m > cO + (cLen b i : Int) * 1024
              then cO + (cLen b i : Int) * 1024 else m
    (cO, m')

/-- `rNode.dOffRange`. -/
def dOffRange (b : Buf) (i : Nat) (dBias : Int) : Range :=
  (dOff b i dBias, dOff b (i+1) dBias)

/-- `rNode.chunk`: the chunk stored in slot `i` of a node. -/
def chunk (b : Buf) (i : Nat) (cBias dBias : Int) : Chunk :=
  { DRange := dOffRange b i dBias
    CPrimary := cOffRange b i cBias
    CSecondary := cOffRange b (sTag b i) cBias
    CTertiary := cOffRange b (tTag b i) cBias
    STag := sTag b i
    TTag := tTag b i
    Codec := codec b }

/-- The linear scan of `rNode.findChunkContaining`, searching slots
`i, i+1, …` with `k` trips remaining. -/
def fccAux (b : Buf) (d dBias : Int) : Nat → Nat → Option Nat
  | _, 0 => none
  | i, k+1 => if d < dOff b (i+1) dBias then some i else fccAux b d dBias (i+1) k

/-- `rNode.findChunkContaining`: the first slot `i < arity` with
`d < dOff(i+1, dBias)`.  A `none` result models the Go panic
("could not find containing chunk"). -/
def findChunkContaining (b : Buf) (d dBias : Int) : Option Nat :=
  fccAux b d dBias 0 (arity b)

/-- The reader's error values.  Go distinguishes errors by value; the
distinct error objects created by the reader are modelled as an enum.
`endOfStream` is `io.EOF`. -/
inductive Err where
  | invalidCompressedSize
  | ioError
  | missingMagic
  | missingRootNode
  | unsupportedVersion
  | invalidIndexNode
  | negativeSeek
  | internalArity
  | panicked
  | endOfStream
deriving DecidableEq

/-- The `Reader` struct (reader.go).  The `ReadSeeker` field is passed
separately as a `Buf` of `CompressedSize` bytes (a nil ReadSeeker is not
modelled; `checkParameters` only retains the CompressedSize check). -/
structure ReaderState where
  csize : Int
  initialized : Bool
  rootNodeArity : Nat
  needToResolveSeekPosition : Bool
  err : Option Err
  decompressedSize : Int
  rootNodeCOffset : Int
  seekPosition : Int
  nextChunk : Int
  currNodeCBias : Int
  currNodeDBias : Int
  currNode : Buf

/-- The zero-valued `Reader` a caller constructs: only `CompressedSize`
(and the byte source) are set; everything else is Go's zero value. -/
def initReader (csize : Int) : ReaderState :=
  { csize := csize, initialized := false, rootNodeArity := 0,
    needToResolveSeekPosition := false, err := none, decompressedSize := 0,
    rootNodeCOffset := 0, seekPosition := 0, nextChunk := 0,
    currNodeCBias := 0, currNodeDBias := 0, currNode := fun _ => 0 }

/-- Whether `readAt(p[:len], off)` succeeds against a seekable source of
`csize` bytes: the read must lie entirely inside the file, otherwise
Seek/ReadFull reports an error. -/
def readAtOk (csize off : Int) (len : Nat) : Bool :=
  decide (0 ≤ off ∧ off + (len : Int) ≤ csize)

/-- The effect of a successful `readAt(currNode[:len], off)`: the first
`len` bytes of the buffer are replaced by file bytes starting at `off`;
the rest of the scratch buffer keeps its previous (stale) content. -/
def writeBytes (file : Buf) (off : Int) (len : Nat) (old : Buf) : Buf :=
  fun j => if j < len then file (off.toNat + j) else old j

/-- `Reader.load`: read the `nodeSize arity` bytes at `cOffset` into the
scratch node buffer.  Does not validate the result. -/
def load (file : Buf) (r : ReaderState) (cOffset : Int) (a : Nat) :
    ReaderState × Option Err :=
  if a = 0 then
    ({r with err := some .internalArity}, some .internalArity)
  else if readAtOk r.csize cOffset (nodeSize a) then
    ({r with currNode := writeBytes file cOffset (nodeSize a) r.currNode}, none)
  else
    ({r with err := some .ioError}, some .ioError)

/-- `Reader.checkParameters` (the nil-ReadSeeker check is not modelled). -/
def checkParameters (r : ReaderState) : ReaderState × Option Err :=
  if r.csize < 32 then
    ({r with err := some .invalidCompressedSize}, some .invalidCompressedSize)
  else (r, none)

/-- `Reader.tryRootNode`: probe one root placement.  Returns the updated
state, whether a root was found, and a (sticky) I/O error if one occurred. -/
def tryRootNode (file : Buf) (r : ReaderState) (a : Nat) (fromEnd : Bool) :
    ReaderState × Bool × Option Err :=
  if a = 0 then (r, false, none)
  else if r.csize < (nodeSize a : Int) then (r, false, none)
  else
    let cOffset : Int := if fromEnd then r.csize - (nodeSize a : Int) else 0
    match load file r cOffset a with
    | (r', some e) => (r', false, some e)
    | (r', none) =>
      if ¬ valid r'.currNode then (r', false, none)
      else if cPtrMax r'.currNode ≠ r'.csize then (r', false, none)
      else ({r' with needToResolveSeekPosition := true,
                     rootNodeCOffset := cOffset,
                     rootNodeArity := a,
                     decompressedSize := dPtrMax r'.currNode}, true, none)

/-- `Reader.findRootNode`: magic check at the head, then the head
placement, then the tail placement.  Note that the final
"missing index root node" error is returned without being latched into
`r.err` (faithful to the source). -/
def findRootNode (file : Buf) (r : ReaderState) : ReaderState × Option Err :=
  if ¬ readAtOk r.csize 0 4 then ({r with err := some .ioError}, some .ioError)
  else if writeBytes file 0 4 r.currNode 0 ≠ magic 0 ∨
      writeBytes file 0 4 r.currNode 1 ≠ magic 1 ∨
      writeBytes file 0 4 r.currNode 2 ≠ magic 2 then
    ({r with currNode := writeBytes file 0 4 r.currNode,
             err := some .missingMagic}, some .missingMagic)
  else
    match tryRootNode file {r with currNode := writeBytes file 0 4 r.currNode}
        (writeBytes file 0 4 r.currNode 3) false with
    | (r2, _, some e) => (r2, some e)
    | (r2, true, none) => (r2, none)
    | (r2, false, none) =>
      if ¬ readAtOk r2.csize (r2.csize - 1) 1 then
        ({r2 with err := some .ioError}, some .ioError)
      else
        match tryRootNode file {r2 with currNode := writeBytes file (r2.csize - 1) 1 r2.currNode}
            (writeBytes file (r2.csize - 1) 1 r2.currNode 0) true with
        | (r4, _, some e) => (r4, some e)
        | (r4, true, none) => (r4, none)
        | (r4, false, none) => (r4, some .missingRootNode)

/-- `Reader.initialize` (spelled `initialise` here): runs once, latching
parameter and root-location errors, and rejects root versions other
than 1. -/
def initialise (file : Buf) (r : ReaderState) : ReaderState × Option Err :=
  match r.err with
  | some e => (r, some e)
  | none =>
    if r.initialized then (r, none)
    else
      let r1 := {r with initialized := true}
      match checkParameters r1 with
      | (r2, some e) => (r2, some e)
      | (r2, none) =>
        match findRootNode file r2 with
        | (r3, some e) => (r3, some e)
        | (r3, none) =>
          if version r3.currNode ≠ 1 then
            ({r3 with err := some .unsupportedVersion}, some .unsupportedVersion)
          else (r3, none)

/-- `Reader.loadAndValidate`: bounds-check, load and structurally validate
a child node, then enforce the four parent/child consistency conditions. -/
def loadAndValidate (file : Buf) (r : ReaderState) (cOffset : Int)
    (parentCodec : Nat) (parentVersion : Nat) (parentCOffMax : Int)
    (childCBias : Int) (childDSize : Int) : ReaderState × Option Err :=
  if cOffset < 0 ∨ r.csize - 4 < cOffset then
    ({r with err := some .invalidIndexNode}, some .invalidIndexNode)
  else if ¬ readAtOk r.csize cOffset 4 then
    ({r with err := some .ioError}, some .ioError)
  else
    let r1 : ReaderState := {r with currNode := writeBytes file cOffset 4 r.currNode}
    let a : Nat := writeBytes file cOffset 4 r.currNode 3
    if a = 0 then
      ({r1 with err := some .invalidIndexNode}, some .invalidIndexNode)
    else if r.csize < (nodeSize a : Int) ∨ r.csize - (nodeSize a : Int) < cOffset then
      ({r1 with err := some .invalidIndexNode}, some .invalidIndexNode)
    else
      match load file r1 cOffset a with
      | (r2, some e) => (r2, some e)
      | (r2, none) =>
        if ¬ valid r2.currNode then
          ({r2 with err := some .invalidIndexNode}, some .invalidIndexNode)
        else if ¬ bitwiseSubset parentCodec (codec r2.currNode) ∨
                parentVersion < version r2.currNode ∨
                parentCOffMax < childCBias + cPtrMax r2.currNode ∨
                childDSize ≠ dPtrMax r2.currNode then
          ({r2 with err := some .invalidIndexNode}, some .invalidIndexNode)
        else (r2, none)

/-- The walk of `Reader.resolveSeekPosition`, with fuel: `none` means the
walk did not finish within `fuel` steps.  A `some (r, some .panicked)`
result models the Go panic in `findChunkContaining`. -/
def resolveLoop (file : Buf) (r : ReaderState) (cBias dBias : Int) :
    Nat → Option (ReaderState × Option Err)
  | 0 => none
  | fuel+1 =>
    match findChunkContaining r.currNode r.seekPosition dBias with
    | none => some (r, some .panicked)
    | some i =>
      if isLeaf r.currNode i then
        some ({r with nextChunk := (i : Int), currNodeCBias := cBias,
                      currNodeDBias := dBias}, none)
      else
        let parentCodec := codec r.currNode
        let parentVersion := version r.currNode
        let parentCOffMax := cBias + cPtrMax r.currNode
        let childCOffset := cOff r.currNode i cBias
        let childCBias := if sTag r.currNode i < arity r.currNode
                          then cOff r.currNode (sTag r.currNode i) cBias else cBias
        let childDBias := dOff r.currNode i dBias
        let childDSize := dSize r.currNode i
        match loadAndValidate file r childCOffset parentCodec parentVersion
            parentCOffMax childCBias childDSize with
        | (r', some e) => some (r', some e)
        | (r', none) => resolveLoop file r' childCBias childDBias fuel

/-- `Reader.resolveSeekPosition`: reload the root and walk down to the leaf
containing `seekPosition`. -/
def resolveSeekPosition (file : Buf) (r : ReaderState) (fuel : Nat) :
    Option (ReaderState × Option Err) :=
  match load file r r.rootNodeCOffset r.rootNodeArity with
  | (r', some e) => some (r', some e)
  | (r', none) => resolveLoop file r' 0 0 fuel

/-- The inner emission loop of `Reader.NextChunk`: emit the next non-empty
slot of the current node, advancing `seekPosition` past empty slots.
`k` is the trip count (the Go loop runs `arity - nextChunk` times). -/
def emitChunks (r : ReaderState) : Nat → ReaderState × Option Chunk
  | 0 => (r, none)
  | k+1 =>
    if r.nextChunk < (arity r.currNode : Int) then
      let c := chunk r.currNode r.nextChunk.toNat r.currNodeCBias r.currNodeDBias
      let r' := {r with nextChunk := r.nextChunk + 1, seekPosition := c.DRange.2}
      if c.DRange.1 = c.DRange.2 then emitChunks r' k else (r', some c)
    else (r, none)

/-- The outer loop of `Reader.NextChunk`, with fuel for the (potentially
unbounded) resolve/exhaust cycle. -/
def nextChunkLoop (file : Buf) (r : ReaderState) :
    Nat → Option (ReaderState × Except Err Chunk)
  | 0 => none
  | fuel+1 =>
    if r.needToResolveSeekPosition then
      if r.decompressedSize ≤ r.seekPosition then
        some (r, .error .endOfStream)
      else
        let r1 := {r with needToResolveSeekPosition := false}
        match resolveSeekPosition file r1 fuel with
        | none => none
        | some (r2, some e) => some (r2, .error e)
        | some (r2, none) =>
          match emitChunks r2 ((arity r2.currNode - r2.nextChunk).toNat) with
          | (r3, some c) => some (r3, .ok c)
          | (r3, none) =>
            nextChunkLoop file {r3 with needToResolveSeekPosition := true} fuel
    else
      match emitChunks r ((arity r.currNode - r.nextChunk).toNat) with
      | (r3, some c) => some (r3, .ok c)
      | (r3, none) =>
        nextChunkLoop file {r3 with needToResolveSeekPosition := true} fuel

/-- Public `Reader.DecompressedSize`. -/
def DecompressedSize (file : Buf) (r : ReaderState) : ReaderState × Except Err Int :=
  match initialise file r with
  | (r', some e) => (r', .error e)
  | (r', none) => (r', .ok r'.decompressedSize)

/-- Public `Reader.SeekToChunkContaining`. -/
def SeekToChunkContaining (file : Buf) (r : ReaderState) (d : Int) :
    ReaderState × Option Err :=
  match initialise file r with
  | (r', some e) => (r', some e)
  | (r', none) =>
    if d < 0 then
      ({r' with err := some .negativeSeek}, some .negativeSeek)
    else
      ({r' with needToResolveSeekPosition := true, seekPosition := d}, none)

/-- Public `Reader.NextChunk`, with fuel. -/
def NextChunk (file : Buf) (r : ReaderState) (fuel : Nat) :
    Option (ReaderState × Except Err Chunk) :=
  match initialise file r with
  | (r', some e) => some (r', .error e)
  | (r', none) => nextChunkLoop file r' fuel

end Rac

deriving instance DecidableEq for Except

namespace Rac

/-! ### Concrete containers used as witnesses and counterexamples

Each node's 16-bit checksum is computed with the `crc32IEEE` function
above, so the checksum invariant holds by evaluation. -/

/-- Body bytes (offsets 6..31) of a 32-byte arity-1 root whose single leaf
slot covers DSpace `[0, 100)`; `cPtrMax = 32`, codec 1, version 1. -/
def f4Body : List Nat :=
  [0, 0] ++ [100,0,0,0,0,0] ++ [0, 1] ++ [0,0,0,0,0,0] ++ [0, 1] ++
  [32,0,0,0,0,0] ++ [1, 1]

/-- Folded checksum of `f4Body`. -/
def f4ck : Nat := let c := crc32IEEE f4Body; c ^^^ (c >>> 16)

/-- A minimal well-formed 32-byte container: a head-placed arity-1 root
with one leaf chunk covering `[0, 100)`. -/
def F4list : List Nat :=
  [0x72, 0xC3, 0x63, 1, f4ck % 256, (f4ck >>> 8) % 256] ++ f4Body

/-- `F4list` as a byte source. -/
def F4 : Buf := fun i => F4list.getD i 0

/-- Body bytes of a 32-byte arity-1 root whose single slot is a branch
(`tTag = 0xFE`) pointing at CSpace offset 0 — the node itself.  Its
`sTag` is 0, so the child CBias is `cOff(0) = 0` as well. -/
def f3Body : List Nat :=
  [0, 0xFE] ++ [100,0,0,0,0,0] ++ [0, 1] ++ [0,0,0,0,0,0] ++ [0, 0] ++
  [32,0,0,0,0,0] ++ [1, 1]

/-- Folded checksum of `f3Body`. -/
def f3ck : Nat := let c := crc32IEEE f3Body; c ^^^ (c >>> 16)

/-- A 32-byte container whose root's only slot is a branch child located
at offset 0 — i.e. the root is its own child.  Every structural and
parent/child check passes, so descent revisits the same node forever. -/
def F3list : List Nat :=
  [0x72, 0xC3, 0x63, 1, f3ck % 256, (f3ck >>> 8) % 256] ++ f3Body

/-- `F3list` as a byte source. -/
def F3 : Buf := fun i => F3list.getD i 0

/-- Body bytes of a 32-byte arity-1 leaf root with `cPtrMax = 33`. -/
def n1Body : List Nat :=
  [0, 0] ++ [100,0,0,0,0,0] ++ [0, 1] ++ [0,0,0,0,0,0] ++ [0, 1] ++
  [33,0,0,0,0,0] ++ [1, 1]

/-- Folded checksum of `n1Body`. -/
def n1ck : Nat := let c := crc32IEEE n1Body; c ^^^ (c >>> 16)

/-- A 33-byte container whose first byte is not a magic byte, but which
ends with a fully valid tail-placed root (last byte = arity 1, the node
occupying bytes `[1, 33)`, `cPtrMax = 33` = container length). -/
def F1list : List Nat :=
  [0] ++ [0x72, 0xC3, 0x63, 1, n1ck % 256, (n1ck >>> 8) % 256] ++ n1Body

/-- `F1list` as a byte source. -/
def F1 : Buf := fun i => F1list.getD i 0

/-- Body bytes of a 32-byte arity-1 leaf root with `cPtrMax = 37`. -/
def n2Body : List Nat :=
  [0, 0] ++ [100,0,0,0,0,0] ++ [0, 1] ++ [0,0,0,0,0,0] ++ [0, 1] ++
  [37,0,0,0,0,0] ++ [1, 1]

/-- Folded checksum of `n2Body`. -/
def n2ck : Nat := let c := crc32IEEE n2Body; c ^^^ (c >>> 16)

/-- A 37-byte container starting with the magic bytes but with head arity
byte 0 (so the head placement fails), ending with a valid tail-placed
root at bytes `[5, 37)` with `cPtrMax = 37`. -/
def F2list : List Nat :=
  [0x72, 0xC3, 0x63, 0, 0] ++
  [0x72, 0xC3, 0x63, 1, n2ck % 256, (n2ck >>> 8) % 256] ++ n2Body

/-- `F2list` as a byte source. -/
def F2 : Buf := fun i => F2list.getD i 0

/-- A 32-byte container starting with the magic bytes whose head node is
structurally invalid (its duplicate arity byte is 0, not 1) and whose
last byte is 0, so neither root placement succeeds. -/
def F5list : List Nat := [0x72, 0xC3, 0x63, 1] ++ List.replicate 28 0

/-- `F5list` as a byte source. -/
def F5 : Buf := fun i => F5list.getD i 0

/-- Body bytes of a 32-byte arity-1 root whose single slot is a branch
pointing at CSpace offset 32, with `sTag = 1` (≥ arity), `dPtrMax = 100`
and `cPtrMax = 64`. -/
def f6Body : List Nat :=
  [0, 0xFE] ++ [100,0,0,0,0,0] ++ [0, 1] ++ [32,0,0,0,0,0] ++ [0, 1] ++
  [64,0,0,0,0,0] ++ [1, 1]

/-- Folded checksum of `f6Body`. -/
def f6ck : Nat := let c := crc32IEEE f6Body; c ^^^ (c >>> 16)

/-- A 64-byte container with a valid head-placed branch root whose child
(at offset 32) is 32 zero bytes — an invalid index node.  The container
is accepted by `initialise` but every descent fails. -/
def F6list : List Nat :=
  [0x72, 0xC3, 0x63, 1, f6ck % 256, (f6ck >>> 8) % 256] ++ f6Body ++
  List.replicate 32 0

/-- `F6list` as a byte source. -/
def F6 : Buf := fun i => F6list.getD i 0

/-- The state invariant established by a successful `initialise` (and
preserved by `SeekToChunkContaining`): a validated root is recorded, the
scratch buffer holds exactly the root's bytes, and the decompressed size
is the root's `dPtrMax`. -/
def GoodInit (file : Buf) (r : ReaderState) : Prop :=
  r.err = none ∧ r.initialized = true ∧
  valid r.currNode = true ∧ cPtrMax r.currNode = r.csize ∧
  r.decompressedSize = dPtrMax r.currNode ∧
  r.rootNodeArity ≠ 0 ∧ 0 ≤ r.rootNodeCOffset ∧
  r.rootNodeCOffset + (nodeSize r.rootNodeArity : Int) ≤ r.csize ∧
  version r.currNode = 1 ∧
  writeBytes file r.rootNodeCOffset (nodeSize r.rootNodeArity) r.currNode = r.currNode

/-- Two buffers agree on the first `n` bytes. -/
def EqOn (b1 b2 : Buf) (n : Nat) : Prop := ∀ j, j < n → b1 j = b2 j

/-- The bytes of the file starting at CSpace offset `off`, viewed as a
node buffer. -/
def nodeView (file : Buf) (off : Nat) : Buf := fun j => file (off + j)

/-- The state invariant established by a successful `initialise` on the
static file: a valid, self-contained root node region whose `dPtrMax` is
the recorded decompressed size.  Only scalar fields and the file itself
are mentioned, so it is untouched by later scratch-buffer traffic. -/
def GoodRoot (file : Buf) (S : ReaderState) : Prop :=
  0 ≤ S.rootNodeCOffset ∧
  S.rootNodeCOffset + (nodeSize S.rootNodeArity : Int) ≤ S.csize ∧
  S.rootNodeArity ≠ 0 ∧
  valid (nodeView file S.rootNodeCOffset.toNat) = true ∧
  arity (nodeView file S.rootNodeCOffset.toNat) ≤ S.rootNodeArity ∧
  dPtrMax (nodeView file S.rootNodeCOffset.toNat) = S.decompressedSize

/-- `e` is a DSpace position reachable as a slot boundary somewhere in
the static node tree rooted at buffer `b` (biases `cBias`, `dBias`):
either a boundary of `b` itself, or strictly inside a branch slot of `b`
and reachable in that child's subtree.  Children are taken as the file
bytes at the slot's CSpace offset. -/
inductive BdyIn (file : Buf) : Buf → Int → Int → Int → Prop where
  | base (b : Buf) (cBias dBias : Int) (m : Nat) (e : Int)
      (hm : m ≤ arity b) (he : e = dOff b m dBias) : BdyIn file b cBias dBias e
  | step (b : Buf) (cBias dBias : Int) (j : Nat) (e : Int)
      (hj : j < arity b) (hbr : isLeaf b j = false)
      (h1 : dOff b j dBias < e) (h2 : e < dOff b (j+1) dBias)
      (hch : BdyIn file (nodeView file (cOff b j cBias).toNat)
        (if sTag b j < arity b then cOff b (sTag b j) cBias else cBias)
        (dOff b j dBias) e) :
      BdyIn file b cBias dBias e

/-- The invariant carried across public `NextChunk` calls during a full
read: sticky state clean, the seek position is a reachable boundary at
or below the decompressed size, and — once a node is being emitted — the
seek position is exactly the next slot's `dOff` and every later boundary
of the node is root-reachable. -/
def RunInv (file : Buf) (S : ReaderState) : Prop :=
  GoodRoot file S ∧ S.err = none ∧ S.initialized = true ∧
  0 ≤ S.seekPosition ∧ S.seekPosition ≤ S.decompressedSize ∧
  (S.needToResolveSeekPosition = true →
    BdyIn file (nodeView file S.rootNodeCOffset.toNat) 0 0 S.seekPosition) ∧
  (S.needToResolveSeekPosition = false →
    valid S.currNode = true ∧ 0 ≤ S.nextChunk ∧
    S.nextChunk.toNat ≤ arity S.currNode ∧
    S.seekPosition = dOff S.currNode S.nextChunk.toNat S.currNodeDBias ∧
    dOff S.currNode (arity S.currNode) S.currNodeDBias ≤ S.decompressedSize ∧
    (∀ s, s ≤ arity S.currNode →
      S.seekPosition ≤ dOff S.currNode s S.currNodeDBias →
      BdyIn file (nodeView file S.rootNodeCOffset.toNat) 0 0
        (dOff S.currNode s S.currNodeDBias)))

/-- Repeatedly calling the public `NextChunk` (each call with `nfuel`
descent fuel), collecting chunks until a call returns an error; `none`
means one of the calls ran out of fuel or the trip budget `k` was
exhausted first. -/
def run (file : Buf) (r : ReaderState) (nfuel : Nat) : Nat → Option (List Chunk × Err)
  | 0 => none
  | k+1 =>
    match NextChunk file r nfuel with
    | none => none
    | some (_, .error e) => some ([], e)
    | some (r2, .ok c) =>
      match run file r2 nfuel k with
      | none => none
      | some (l, e) => some (c :: l, e)

/-- `Tiles lo l hi`: the `DRange`s of the chunks in `l` are non-empty and
partition `[lo, hi)` exactly, in order and without gaps or overlaps. -/
def Tiles : Int → List Chunk → Int → Prop
  | lo, [], hi => lo = hi
  | lo, c :: l, hi => c.DRange.1 = lo ∧ lo < c.DRange.2 ∧ Tiles c.DRange.2 l hi

/-! ### Basic lemmas about the node codec -/

theorem u48LE_nonneg (b : Buf) (off : Nat) : 0 ≤ u48LE b off := Int.natCast_nonneg _

theorem u48LE_lt (b : Buf) (off : Nat) : u48LE b off < 2^48 := by
  have h : (b off + b (off+1) * 2^8 + b (off+2) * 2^16 + b (off+3) * 2^24 +
      b (off+4) * 2^32 + b (off+5) * 2^40 + b (off+6) * 2^48 + b (off+7) * 2^56)
      % 2^48 < 2^48 := Nat.mod_lt _ (by norm_num)
  unfold u48LE
  exact_mod_cast h

theorem valid_parts {b : Buf} (h : valid b = true) :
    validHeader b = true ∧ validSlots b = true ∧ validCodec b = true ∧
    validDPtrs b = true ∧ validCPtrs b = true ∧ validVersion b = true ∧
    validChecksum b = true := by
  simp only [valid, Bool.and_eq_true] at h
  tauto

theorem valid_arity_ne_zero {b : Buf} (h : valid b = true) : arity b ≠ 0 := by
  have h1 := (valid_parts h).1
  simp only [validHeader, Bool.and_eq_true, bne_iff_ne, ne_eq] at h1
  exact h1.1.2

/-- The stored DPtr values are monotone between indices 1 and arity. -/
theorem validDPtrs_mono {b : Buf} (h : validDPtrs b = true) :
    ∀ i j, 1 ≤ i → i ≤ j → j ≤ arity b → u48LE b (8*i) ≤ u48LE b (8*j) := by
  have hp : ∀ i < arity b + 1, 2 ≤ i → u48LE b (8 * (i-1)) ≤ u48LE b (8 * i) :=
    of_decide_eq_true h
  intro i j h1 hij hj
  induction j with
  | zero => omega
  | succ n ih =>
    rcases Nat.eq_or_lt_of_le hij with he | hl
    · exact le_of_eq (by rw [he])
    · have h2 : u48LE b (8*n) ≤ u48LE b (8*(n+1)) := by
        have := hp (n+1) (by omega) (by omega)
        simpa using this
      exact le_trans (ih (by omega) (by omega)) h2

theorem dOff_zero (b : Buf) (dBias : Int) : dOff b 0 dBias = dBias := rfl

theorem dOff_pos (b : Buf) {i : Nat} (h : i ≠ 0) (dBias : Int) :
    dOff b i dBias = dBias + u48LE b (8*i) := by
  simp [dOff, h]

theorem dOff_arity {b : Buf} (h : arity b ≠ 0) (dBias : Int) :
    dOff b (arity b) dBias = dBias + dPtrMax b := by
  simp [dOff, dPtrMax, h]

theorem dOff_ge_bias (b : Buf) (i : Nat) (dBias : Int) : dBias ≤ dOff b i dBias := by
  unfold dOff
  split
  · exact le_refl _
  · have := u48LE_nonneg b (8*i)
    omega

/-- `dOff` is monotone in the slot index, for a structurally valid node. -/
theorem dOff_mono {b : Buf} (h : valid b = true) (dBias : Int) :
    ∀ i j, i ≤ j → j ≤ arity b → dOff b i dBias ≤ dOff b j dBias := by
  intro i j hij hj
  rcases Nat.eq_zero_or_pos i with hi0 | hip
  · subst hi0
    rw [dOff_zero]
    exact dOff_ge_bias b j dBias
  · have hjp : 0 < j := lt_of_lt_of_le hip hij
    rw [dOff_pos b (by omega) dBias, dOff_pos b (by omega) dBias]
    have := validDPtrs_mono (valid_parts h).2.2.2.1 i j hip hij hj
    omega

/-- `dSize i` is the width of the slot's DSpace window. -/
theorem dSize_eq (b : Buf) (i : Nat) (dBias : Int) :
    dSize b i = dOff b (i+1) dBias - dOff b i dBias := by
  unfold dSize dOff
  rcases Nat.eq_zero_or_pos i with h | h
  · subst h; simp
  · simp only [if_neg (Nat.pos_iff_ne_zero.mp h), if_neg (by omega : ¬ i + 1 = 0)]
    have : 8*(i+1) = 8*i+8 := by ring
    rw [this]; ring

/-! ### The linear chunk-containment scan -/

theorem fccAux_sound (b : Buf) (d dBias : Int) :
    ∀ k i m, fccAux b d dBias i k = some m →
      i ≤ m ∧ m < i + k ∧ d < dOff b (m+1) dBias ∧
      (∀ j, i ≤ j → j < m → dOff b (j+1) dBias ≤ d) := by
  intro k
  induction k with
  | zero => intro i m h; simp [fccAux] at h
  | succ n ih =>
    intro i m h
    unfold fccAux at h
    split at h
    · rename_i hlt
      cases h
      exact ⟨le_refl _, by omega, hlt, fun j h1 h2 => by omega⟩
    · rename_i hge
      obtain ⟨h1, h2, h3, h4⟩ := ih (i+1) m h
      refine ⟨by omega, by omega, h3, fun j hj1 hj2 => ?_⟩
      rcases Nat.eq_or_lt_of_le hj1 with he | hl
      · subst he; omega
      · exact h4 j hl hj2

theorem fccAux_complete (b : Buf) (d dBias : Int) :
    ∀ k i, d < dOff b (i+k) dBias → 1 ≤ k → (fccAux b d dBias i k).isSome := by
  intro k
  induction k with
  | zero => omega
  | succ n ih =>
    intro i hd _
    unfold fccAux
    split
    · rfl
    · rename_i hge
      rcases Nat.eq_zero_or_pos n with h0 | hp
      · subst h0
        simp at hd
        omega
      · have : i + (n+1) = (i+1) + n := by omega
        rw [this] at hd
        exact ih (i+1) hd hp

/-! ### Buffer-update lemmas -/

theorem writeBytes_absorb (file : Buf) (off : Int) {l1 l2 : Nat} (h : l1 ≤ l2)
    (old : Buf) :
    writeBytes file off l2 (writeBytes file off l1 old) = writeBytes file off l2 old := by
  funext j
  simp only [writeBytes]
  split
  · rfl
  · rw [if_neg (by omega)]

theorem writeBytes_idem (file : Buf) (off : Int) (len : Nat) (old : Buf) :
    writeBytes file off len (writeBytes file off len old) = writeBytes file off len old :=
  writeBytes_absorb file off (le_refl len) old

theorem writeBytes_lt (file : Buf) (off : Int) {len j : Nat} (h : j < len) (old : Buf) :
    writeBytes file off len old j = file (off.toNat + j) := by
  simp [writeBytes, h]

/-! ### Success characterizations of the reader's internal steps -/

theorem load_ok {file : Buf} {r : ReaderState} {c : Int} {a : Nat} {r' : ReaderState}
    (h : load file r c a = (r', none)) :
    a ≠ 0 ∧ 0 ≤ c ∧ c + (nodeSize a : Int) ≤ r.csize ∧
    r' = {r with currNode := writeBytes file c (nodeSize a) r.currNode} := by
  unfold load at h
  split at h
  · simp at h
  · split at h
    · rename_i ha hro
      have hb : 0 ≤ c ∧ c + (nodeSize a : Int) ≤ r.csize := by
        simpa [readAtOk] using hro
      have h1 : ({r with currNode := writeBytes file c (nodeSize a) r.currNode} :
          ReaderState) = r' := by
        simpa using congrArg Prod.fst h
      exact ⟨ha, hb.1, hb.2, h1.symm⟩
    · simp at h

theorem tryRootNode_found {file : Buf} {r : ReaderState} {a : Nat} {fromEnd : Bool}
    {r' : ReaderState} (h : tryRootNode file r a fromEnd = (r', true, none)) :
    a ≠ 0 ∧
    r'.rootNodeCOffset = (if fromEnd then r.csize - (nodeSize a : Int) else 0) ∧
    0 ≤ r'.rootNodeCOffset ∧
    r'.rootNodeCOffset + (nodeSize a : Int) ≤ r.csize ∧
    r'.currNode = writeBytes file r'.rootNodeCOffset (nodeSize a) r.currNode ∧
    valid r'.currNode = true ∧
    cPtrMax r'.currNode = r.csize ∧
    r'.decompressedSize = dPtrMax r'.currNode ∧
    r'.needToResolveSeekPosition = true ∧
    r'.rootNodeArity = a ∧
    r'.csize = r.csize ∧ r'.err = r.err ∧ r'.initialized = r.initialized ∧
    r'.seekPosition = r.seekPosition ∧ r'.nextChunk = r.nextChunk := by
  unfold tryRootNode at h
  split at h
  · simp at h
  split at h
  · simp at h
  rename_i ha hsz
  split at h
  case isTrue hfe =>
    rcases hL : load file r (r.csize - (nodeSize a : Int)) a with ⟨rl, el⟩
    cases el with
    | some e => simp only [hL] at h; simp at h
    | none =>
      simp only [hL] at h
      obtain ⟨ha', hc1, hc2, hrl⟩ := load_ok hL
      subst hrl
      split at h
      · simp at h
      rename_i hval
      simp only [Bool.not_eq_true, Bool.not_eq_false] at hval
      split at h
      · simp at h
      rename_i hmax
      simp only [ne_eq, not_not] at hmax
      have h1 : _ = r' := congrArg Prod.fst h
      subst h1
      exact ⟨ha, by simp [hfe], hc1, hc2, rfl, hval, hmax, rfl, rfl, rfl, rfl,
        rfl, rfl, rfl, rfl⟩
  case isFalse hfe =>
    rcases hL : load file r 0 a with ⟨rl, el⟩
    cases el with
    | some e => simp only [hL] at h; simp at h
    | none =>
      simp only [hL] at h
      obtain ⟨ha', hc1, hc2, hrl⟩ := load_ok hL
      subst hrl
      split at h
      · simp at h
      rename_i hval
      simp only [Bool.not_eq_true, Bool.not_eq_false] at hval
      split at h
      · simp at h
      rename_i hmax
      simp only [ne_eq, not_not] at hmax
      have h1 : _ = r' := congrArg Prod.fst h
      subst h1
      exact ⟨ha, by simp [hfe], hc1, hc2, rfl, hval, hmax, rfl, rfl, rfl, rfl,
        rfl, rfl, rfl, rfl⟩

theorem tryRootNode_notFound {file : Buf} {r : ReaderState} {a : Nat} {fromEnd : Bool}
    {r' : ReaderState} (h : tryRootNode file r a fromEnd = (r', false, none)) :
    r'.csize = r.csize ∧ r'.err = r.err ∧ r'.initialized = r.initialized ∧
    r'.needToResolveSeekPosition = r.needToResolveSeekPosition ∧
    r'.seekPosition = r.seekPosition ∧ r'.nextChunk = r.nextChunk ∧
    r'.rootNodeArity = r.rootNodeArity ∧ r'.rootNodeCOffset = r.rootNodeCOffset ∧
    r'.decompressedSize = r.decompressedSize := by
  unfold tryRootNode at h
  split at h
  · have h1 : _ = r' := congrArg Prod.fst h
    subst h1
    exact ⟨rfl, rfl, rfl, rfl, rfl, rfl, rfl, rfl, rfl⟩
  split at h
  · have h1 : _ = r' := congrArg Prod.fst h
    subst h1
    exact ⟨rfl, rfl, rfl, rfl, rfl, rfl, rfl, rfl, rfl⟩
  rename_i ha hsz
  split at h
  case isTrue hfe =>
    rcases hL : load file r (r.csize - (nodeSize a : Int)) a with ⟨rl, el⟩
    cases el with
    | some e => simp only [hL] at h; simp at h
    | none =>
      simp only [hL] at h
      obtain ⟨ha', hc1, hc2, hrl⟩ := load_ok hL
      subst hrl
      split at h
      · have h1 : _ = r' := congrArg Prod.fst h
        subst h1
        exact ⟨rfl, rfl, rfl, rfl, rfl, rfl, rfl, rfl, rfl⟩
      split at h
      · have h1 : _ = r' := congrArg Prod.fst h
        subst h1
        exact ⟨rfl, rfl, rfl, rfl, rfl, rfl, rfl, rfl, rfl⟩
      · simp at h
  case isFalse hfe =>
    rcases hL : load file r 0 a with ⟨rl, el⟩
    cases el with
    | some e => simp only [hL] at h; simp at h
    | none =>
      simp only [hL] at h
      obtain ⟨ha', hc1, hc2, hrl⟩ := load_ok hL
      subst hrl
      split at h
      · have h1 : _ = r' := congrArg Prod.fst h
        subst h1
        exact ⟨rfl, rfl, rfl, rfl, rfl, rfl, rfl, rfl, rfl⟩
      split at h
      · have h1 : _ = r' := congrArg Prod.fst h
        subst h1
        exact ⟨rfl, rfl, rfl, rfl, rfl, rfl, rfl, rfl, rfl⟩
      · simp at h

theorem findRootNode_ok {file : Buf} {r : ReaderState} {r' : ReaderState}
    (h : findRootNode file r = (r', none)) :
    valid r'.currNode = true ∧ cPtrMax r'.currNode = r.csize ∧
    r'.decompressedSize = dPtrMax r'.currNode ∧
    r'.needToResolveSeekPosition = true ∧
    r'.rootNodeArity ≠ 0 ∧ 0 ≤ r'.rootNodeCOffset ∧
    r'.rootNodeCOffset + (nodeSize r'.rootNodeArity : Int) ≤ r.csize ∧
    r'.csize = r.csize ∧ r'.err = r.err ∧ r'.initialized = r.initialized ∧
    r'.seekPosition = r.seekPosition ∧ r'.nextChunk = r.nextChunk ∧
    writeBytes file r'.rootNodeCOffset (nodeSize r'.rootNodeArity) r'.currNode = r'.currNode := by
  unfold findRootNode at h
  split at h
  · simp at h
  rename_i hro
  split at h
  · simp at h
  rename_i hm
  rcases hT1 : tryRootNode file {r with currNode := writeBytes file 0 4 r.currNode}
      (writeBytes file 0 4 r.currNode 3) false with ⟨r2, f2, e2⟩
  cases e2 with
  | some e => cases f2 <;> simp only [hT1] at h <;> simp at h
  | none =>
    cases f2 with
    | true =>
      simp only [hT1] at h
      have h1 : r2 = r' := by simpa using congrArg Prod.fst h
      subst h1
      obtain ⟨ha, hcoEq, hco1, hco2, hcn, hval, hmax, hdec, hn, hra, hcs, he, hi,
        hsp, hnc⟩ := tryRootNode_found hT1
      refine ⟨hval, by rw [hmax], hdec, hn, by rw [hra]; exact ha, hco1, ?_, hcs,
        he, hi, hsp, hnc, ?_⟩
      · rw [hra]; exact hco2
      · rw [hra, hcn]
        exact writeBytes_idem file r2.rootNodeCOffset
          (nodeSize (writeBytes file 0 4 r.currNode 3)) _
    | false =>
      simp only [hT1] at h
      obtain ⟨k1, k2, k3, k4, k5, k6, k7, k8, k9⟩ := tryRootNode_notFound hT1
      split at h
      · simp at h
      rename_i hro2
      rcases hT2 : tryRootNode file
          {r2 with currNode := writeBytes file (r2.csize - 1) 1 r2.currNode}
          (writeBytes file (r2.csize - 1) 1 r2.currNode 0) true with ⟨r4, f4, e4⟩
      cases e4 with
      | some e => cases f4 <;> simp only [hT2] at h <;> simp at h
      | none =>
        cases f4 with
        | false => simp only [hT2] at h; simp at h
        | true =>
          simp only [hT2] at h
          have h1 : r4 = r' := by simpa using congrArg Prod.fst h
          subst h1
          obtain ⟨ha, hcoEq, hco1, hco2, hcn, hval, hmax, hdec, hn, hra, hcs, he, hi,
            hsp, hnc⟩ := tryRootNode_found hT2
          refine ⟨hval, by rw [hmax]; exact k1, hdec, hn, by rw [hra]; exact ha,
            hco1, ?_, by rw [hcs]; exact k1, by rw [he]; exact k2,
            by rw [hi]; exact k3, by rw [hsp]; exact k5, by rw [hnc]; exact k6, ?_⟩
          · rw [hra]
            calc r4.rootNodeCOffset +
                (nodeSize (writeBytes file (r2.csize - 1) 1 r2.currNode 0) : Int)
                ≤ r2.csize := hco2
              _ = r.csize := k1
          · rw [hra, hcn]
            exact writeBytes_idem file r4.rootNodeCOffset
              (nodeSize (writeBytes file (r2.csize - 1) 1 r2.currNode 0)) _

theorem checkParameters_cases (r : ReaderState) :
    (r.csize < 32 ∧ checkParameters r =
      ({r with err := some .invalidCompressedSize}, some .invalidCompressedSize)) ∨
    (32 ≤ r.csize ∧ checkParameters r = (r, none)) := by
  unfold checkParameters
  split
  case isTrue hlt => exact Or.inl ⟨hlt, rfl⟩
  case isFalse hlt => exact Or.inr ⟨by omega, rfl⟩

theorem initialise_ok_of_fresh {file : Buf} {r r' : ReaderState}
    (he : r.err = none) (hi : r.initialized = false)
    (h : initialise file r = (r', none)) :
    GoodInit file r' ∧ r'.needToResolveSeekPosition = true ∧
    r'.csize = r.csize ∧ r'.seekPosition = r.seekPosition ∧
    r'.nextChunk = r.nextChunk := by
  unfold initialise at h
  rw [he] at h
  simp only [hi, Bool.false_eq_true, if_false] at h
  rcases checkParameters_cases {r with initialized := true, err := none} with
    ⟨hlt, hcp⟩ | ⟨hge, hcp⟩
  · simp only [hcp] at h
    simp at h
  · simp only [hcp] at h
    rcases hF : findRootNode file {r with initialized := true, err := none} with ⟨r3, e3⟩
    cases e3 with
    | some e => simp only [hF] at h; simp at h
    | none =>
      simp only [hF] at h
      split at h
      · simp at h
      rename_i hv
      simp only [ne_eq, not_not] at hv
      have h1 : r3 = r' := by simpa using congrArg Prod.fst h
      subst h1
      obtain ⟨g1, g2, g3, g4, g5, g6, g7, g8, g9, g10, g11, g12, g13⟩ :=
        findRootNode_ok hF
      exact ⟨⟨g9, g10, g1, by rw [g8]; exact g2, g3, g5, g6, by rw [g8]; exact g7,
        hv, g13⟩, g4, g8, g11, g12⟩

theorem initialise_id {file : Buf} {r : ReaderState}
    (he : r.err = none) (hi : r.initialized = true) :
    initialise file r = (r, none) := by
  unfold initialise
  rw [he]
  simp [hi]

theorem seek_ok {file : Buf} {r : ReaderState} {d : Int} {r' : ReaderState}
    (h : SeekToChunkContaining file r d = (r', none)) :
    ∃ r1, initialise file r = (r1, none) ∧ 0 ≤ d ∧
      r' = {r1 with needToResolveSeekPosition := true, seekPosition := d} := by
  unfold SeekToChunkContaining at h
  rcases hI : initialise file r with ⟨r1, e1⟩
  cases e1 with
  | some e => simp only [hI] at h; simp at h
  | none =>
    simp only [hI] at h
    split at h
    · simp at h
    rename_i hd
    have h1 : _ = r' := congrArg Prod.fst h
    subst h1
    exact ⟨r1, rfl, by omega, rfl⟩

/-- For a valid node with `dBias ≤ d < dBias + dPtrMax`, the scan finds the
smallest slot `i` with `d < dOff(i+1)`, and that slot contains `d`. -/
theorem findChunkContaining_spec {b : Buf} (h : valid b = true) {d dBias : Int}
    (h1 : dBias ≤ d) (h2 : d < dBias + dPtrMax b) :
    ∃ i, findChunkContaining b d dBias = some i ∧ i < arity b ∧
      dOff b i dBias ≤ d ∧ d < dOff b (i+1) dBias ∧
      (∀ j, j < i → dOff b (j+1) dBias ≤ d) := by
  have ha := valid_arity_ne_zero h
  have hend : d < dOff b (0 + arity b) dBias := by
    rw [Nat.zero_add, dOff_arity ha]; exact h2
  have hsome := fccAux_complete b d dBias (arity b) 0 hend (by omega)
  obtain ⟨m, hm⟩ := Option.isSome_iff_exists.mp hsome
  obtain ⟨hm1, hm2, hm3, hm4⟩ := fccAux_sound b d dBias (arity b) 0 m hm
  refine ⟨m, hm, by omega, ?_, hm3, fun j hj => hm4 j (Nat.zero_le _) hj⟩
  rcases Nat.eq_zero_or_pos m with h0 | hp
  · subst h0; simpa [dOff_zero] using h1
  · have := hm4 (m-1) (Nat.zero_le _) (by omega)
    have he : m - 1 + 1 = m := by omega
    rw [he] at this
    exact this

/-! ### Buffer agreement (congruence) lemmas

A node's accessors and `valid` only read bytes below `nodeSize (arity b)`,
so two buffers agreeing on that prefix are observationally equal. -/

theorem u48LE_congr {b1 b2 : Buf} {n : Nat} (h : EqOn b1 b2 n) {off : Nat}
    (ho : off + 8 ≤ n) : u48LE b1 off = u48LE b2 off := by
  unfold u48LE
  rw [h off (by omega), h (off+1) (by omega), h (off+2) (by omega),
    h (off+3) (by omega), h (off+4) (by omega), h (off+5) (by omega),
    h (off+6) (by omega), h (off+7) (by omega)]

theorem nodeSize_pos (a : Nat) : 16 ≤ nodeSize a := by unfold nodeSize; omega

theorem arity_congr {b1 b2 : Buf} (h : EqOn b1 b2 (nodeSize (arity b1))) :
    arity b1 = arity b2 :=
  h 3 (by have := nodeSize_pos (arity b1); omega)

theorem dOff_congr {b1 b2 : Buf} (h : EqOn b1 b2 (nodeSize (arity b1)))
    {i : Nat} (hi : i ≤ arity b1) (dBias : Int) :
    dOff b1 i dBias = dOff b2 i dBias := by
  unfold dOff
  split
  · rfl
  · rw [u48LE_congr h (by unfold nodeSize; omega)]

theorem dPtrMax_congr {b1 b2 : Buf} (h : EqOn b1 b2 (nodeSize (arity b1))) :
    dPtrMax b1 = dPtrMax b2 := by
  unfold dPtrMax
  rw [← arity_congr h, u48LE_congr h (by unfold nodeSize; omega)]

theorem cPtrMax_congr {b1 b2 : Buf} (h : EqOn b1 b2 (nodeSize (arity b1))) :
    cPtrMax b1 = cPtrMax b2 := by
  unfold cPtrMax
  rw [← arity_congr h, u48LE_congr h (by unfold nodeSize; omega)]

theorem codec_congr {b1 b2 : Buf} (h : EqOn b1 b2 (nodeSize (arity b1))) :
    codec b1 = codec b2 := by
  unfold codec
  rw [← arity_congr h, h (8 * arity b1 + 7) (by unfold nodeSize; omega)]

theorem version_congr {b1 b2 : Buf} (h : EqOn b1 b2 (nodeSize (arity b1))) :
    version b1 = version b2 := by
  unfold version
  rw [← arity_congr h, h (16 * arity b1 + 14) (by unfold nodeSize; omega)]

theorem cOff_congr {b1 b2 : Buf} (h : EqOn b1 b2 (nodeSize (arity b1)))
    {i : Nat} (hi : i < arity b1) (cBias : Int) :
    cOff b1 i cBias = cOff b2 i cBias := by
  unfold cOff
  rw [← arity_congr h, u48LE_congr h (by unfold nodeSize; omega)]

theorem dSize_congr {b1 b2 : Buf} (h : EqOn b1 b2 (nodeSize (arity b1)))
    {i : Nat} (hi : i < arity b1) : dSize b1 i = dSize b2 i := by
  unfold dSize
  rw [u48LE_congr h (by unfold nodeSize; omega)]
  split
  · rfl
  · rw [u48LE_congr h (by unfold nodeSize; omega)]

theorem sTag_congr {b1 b2 : Buf} (h : EqOn b1 b2 (nodeSize (arity b1)))
    {i : Nat} (hi : i < arity b1) : sTag b1 i = sTag b2 i := by
  unfold sTag
  rw [← arity_congr h, h (8*i + (8 * arity b1 + 15)) (by unfold nodeSize; omega)]

theorem tTag_congr {b1 b2 : Buf} (h : EqOn b1 b2 (nodeSize (arity b1)))
    {i : Nat} (hi : i < arity b1) : tTag b1 i = tTag b2 i := by
  unfold tTag
  rw [h (8*i + 7) (by unfold nodeSize; omega)]

theorem cLen_congr {b1 b2 : Buf} (h : EqOn b1 b2 (nodeSize (arity b1)))
    {i : Nat} (hi : i < arity b1) : cLen b1 i = cLen b2 i := by
  unfold cLen
  rw [← arity_congr h, h (8*i + (8 * arity b1 + 14)) (by unfold nodeSize; omega)]

theorem isLeaf_congr {b1 b2 : Buf} (h : EqOn b1 b2 (nodeSize (arity b1)))
    {i : Nat} (hi : i < arity b1) : isLeaf b1 i = isLeaf b2 i := by
  unfold isLeaf
  rw [h (8*i + 7) (by unfold nodeSize; omega)]

theorem bufSlice_congr {b1 b2 : Buf} {n : Nat} (h : EqOn b1 b2 n) {off len : Nat}
    (ho : off + len ≤ n) : bufSlice b1 off len = bufSlice b2 off len := by
  unfold bufSlice
  apply List.map_congr_left
  intro j hj
  rw [List.mem_range] at hj
  exact h (off + j) (by omega)

theorem foldedChecksum_congr {b1 b2 : Buf} (h : EqOn b1 b2 (nodeSize (arity b1))) :
    foldedChecksum b1 = foldedChecksum b2 := by
  unfold foldedChecksum
  rw [← arity_congr h, bufSlice_congr h (by have := nodeSize_pos (arity b1); omega)]

theorem valid_congr {b1 b2 : Buf} (h : EqOn b1 b2 (nodeSize (arity b1))) :
    valid b1 = valid b2 := by
  have ha := arity_congr h
  have h16 := nodeSize_pos (arity b1)
  unfold valid validHeader validSlots validCodec validDPtrs validCPtrs
    validVersion validChecksum
  rw [← ha, h 0 (by omega), h 1 (by omega), h 2 (by omega), h 3 (by omega),
    h (nodeSize (arity b1) - 1) (by omega),
    h (8 * arity b1 + 6) (by unfold nodeSize; omega),
    h (8 * arity b1 + 7) (by unfold nodeSize; omega)]
  rw [show Rac.version b2 = Rac.version b1 from (version_congr h).symm]
  rw [show foldedChecksum b2 = foldedChecksum b1 from (foldedChecksum_congr h).symm]
  rw [h 4 (by omega), h 5 (by omega)]
  have hs : (∀ i < arity b1, b1 (8*i + 6) = 0 ∧
      ¬ (0xC0 ≤ b1 (8*i + 7) ∧ b1 (8*i + 7) < 0xFE)) ↔
      (∀ i < arity b1, b2 (8*i + 6) = 0 ∧
      ¬ (0xC0 ≤ b2 (8*i + 7) ∧ b2 (8*i + 7) < 0xFE)) := by
    constructor <;> intro hp i hi <;>
      [rw [← h (8*i+6) (by unfold nodeSize; omega),
           ← h (8*i+7) (by unfold nodeSize; omega)];
       rw [h (8*i+6) (by unfold nodeSize; omega),
           h (8*i+7) (by unfold nodeSize; omega)]] <;>
      exact hp i hi
  have hd : (∀ i < arity b1 + 1, 2 ≤ i →
      u48LE b1 (8 * (i-1)) ≤ u48LE b1 (8 * i)) ↔
      (∀ i < arity b1 + 1, 2 ≤ i →
      u48LE b2 (8 * (i-1)) ≤ u48LE b2 (8 * i)) := by
    constructor <;> intro hp i hi h2 <;>
      [rw [← u48LE_congr h (by unfold nodeSize; omega),
           ← u48LE_congr h (by unfold nodeSize; omega)];
       rw [u48LE_congr h (by unfold nodeSize; omega),
           u48LE_congr h (by unfold nodeSize; omega)]] <;>
      exact hp i hi h2
  have hcp : (∀ i < arity b1,
      u48LE b1 (8*i + (8 * arity b1 + 8)) ≤ cPtrMax b1) ↔
      (∀ i < arity b1,
      u48LE b2 (8*i + (8 * arity b1 + 8)) ≤ cPtrMax b2) := by
    have hm := cPtrMax_congr h
    constructor <;> intro hp i hi <;>
      [rw [← u48LE_congr h (by unfold nodeSize; omega), ← hm];
       rw [u48LE_congr h (by unfold nodeSize; omega), hm]] <;>
      exact hp i hi
  rw [decide_eq_decide.mpr hs, decide_eq_decide.mpr hd]
  have hcp2 : decide (∀ i < arity b1,
      u48LE b1 (8*i + (8 * arity b1 + 8)) ≤ cPtrMax b1) =
      decide (∀ i < arity b1,
      u48LE b2 (8*i + (8 * arity b1 + 8)) ≤ cPtrMax b2) :=
    decide_eq_decide.mpr hcp
  rw [hcp2]

theorem fcc_congr {b1 b2 : Buf} (h : EqOn b1 b2 (nodeSize (arity b1)))
    (d dBias : Int) :
    findChunkContaining b1 d dBias = findChunkContaining b2 d dBias := by
  unfold findChunkContaining
  rw [← arity_congr h]
  have : ∀ k i, i + k ≤ arity b1 →
      fccAux b1 d dBias i k = fccAux b2 d dBias i k := by
    intro k
    induction k with
    | zero => intro i _; rfl
    | succ m ih =>
      intro i hik
      unfold fccAux
      rw [dOff_congr h (by omega) dBias]
      split
      · rfl
      · exact ih (i+1) (by omega)
  exact this (arity b1) 0 (by omega)

theorem cOffRange_congr {b1 b2 : Buf} (h : EqOn b1 b2 (nodeSize (arity b1)))
    (i : Nat) (cBias : Int) : cOffRange b1 i cBias = cOffRange b2 i cBias := by
  unfold cOffRange
  rw [← arity_congr h, ← cPtrMax_congr h]
  split
  · rfl
  · rename_i hi
    rw [← cOff_congr h (by omega) cBias, ← cLen_congr h (by omega)]

theorem chunk_congr {b1 b2 : Buf} (h : EqOn b1 b2 (nodeSize (arity b1)))
    {i : Nat} (hi : i < arity b1) (cBias dBias : Int) :
    chunk b1 i cBias dBias = chunk b2 i cBias dBias := by
  unfold chunk dOffRange
  rw [← sTag_congr h hi, ← tTag_congr h hi, ← codec_congr h,
    ← cOffRange_congr h i cBias, ← cOffRange_congr h (sTag b1 i) cBias,
    ← cOffRange_congr h (tTag b1 i) cBias,
    ← dOff_congr h (by omega) dBias, ← dOff_congr h (by omega) dBias]

theorem tryRootNode_succeeds {file : Buf} {r : ReaderState} {a : Nat} {fromEnd : Bool}
    (ha : a ≠ 0) (hsz : (nodeSize a : Int) ≤ r.csize)
    (hval : valid (writeBytes file (if fromEnd then r.csize - (nodeSize a : Int) else 0)
      (nodeSize a) r.currNode) = true)
    (hmax : cPtrMax (writeBytes file (if fromEnd then r.csize - (nodeSize a : Int) else 0)
      (nodeSize a) r.currNode) = r.csize) :
    ∃ r2, tryRootNode file r a fromEnd = (r2, true, none) := by
  have hro : readAtOk r.csize (if fromEnd then r.csize - (nodeSize a : Int) else 0)
      (nodeSize a) = true := by
    unfold readAtOk
    apply decide_eq_true
    constructor
    · split <;> omega
    · split <;> omega
  have hL : load file r (if fromEnd then r.csize - (nodeSize a : Int) else 0) a =
      ({r with currNode := (writeBytes file
        (if fromEnd then r.csize - (nodeSize a : Int) else 0) (nodeSize a) r.currNode)},
        none) := by
    unfold load
    rw [if_neg ha, if_pos hro]
  have h2 : (tryRootNode file r a fromEnd).2 = (true, none) := by
    unfold tryRootNode
    rw [if_neg ha, if_neg (not_lt.mpr hsz)]
    simp only [hL]
    rw [if_neg (by simp [hval]), if_neg (by simp [hmax])]
  exact ⟨(tryRootNode file r a fromEnd).1, by rw [← h2]⟩

theorem tryRootNode_fails {file : Buf} {r : ReaderState} {a : Nat} {fromEnd : Bool}
    (hfail : a = 0 ∨ r.csize < (nodeSize a : Int) ∨
      valid (writeBytes file (if fromEnd then r.csize - (nodeSize a : Int) else 0)
        (nodeSize a) r.currNode) = false ∨
      cPtrMax (writeBytes file (if fromEnd then r.csize - (nodeSize a : Int) else 0)
        (nodeSize a) r.currNode) ≠ r.csize) :
    ∃ r2, tryRootNode file r a fromEnd = (r2, false, none) := by
  suffices h2 : (tryRootNode file r a fromEnd).2 = (false, none) by
    exact ⟨(tryRootNode file r a fromEnd).1, by rw [← h2]⟩
  by_cases h0 : a = 0
  · unfold tryRootNode
    rw [if_pos h0]
  by_cases hlt : r.csize < (nodeSize a : Int)
  · unfold tryRootNode
    rw [if_neg h0, if_pos hlt]
  have hro : readAtOk r.csize (if fromEnd then r.csize - (nodeSize a : Int) else 0)
      (nodeSize a) = true := by
    unfold readAtOk
    apply decide_eq_true
    constructor
    · split <;> omega
    · split <;> omega
  have hL : load file r (if fromEnd then r.csize - (nodeSize a : Int) else 0) a =
      ({r with currNode := (writeBytes file
        (if fromEnd then r.csize - (nodeSize a : Int) else 0) (nodeSize a) r.currNode)},
        none) := by
    unfold load
    rw [if_neg h0, if_pos hro]
  rcases hfail with h | h | h | h
  · exact absurd h h0
  · exact absurd h hlt
  · unfold tryRootNode
    rw [if_neg h0, if_neg hlt]
    simp only [hL]
    rw [if_pos (by simp [h])]
  · unfold tryRootNode
    rw [if_neg h0, if_neg hlt]
    simp only [hL]
    by_cases hvv : valid (writeBytes file
        (if fromEnd then r.csize - (nodeSize a : Int) else 0) (nodeSize a) r.currNode) = true
    · rw [if_neg (by simp [hvv]), if_pos h]
    · rw [if_pos (by simpa using hvv)]

/-! ### Claim C1 -/

/-- C1 is false on the code: a container whose first three bytes are not
the magic sequence is rejected with the missing-magic error before the
tail placement is ever probed.  `F1` ends with a fully valid tail-placed
root (last byte 1 = the root arity, the 32-byte node at offset 1 valid,
its `cPtrMax` = 33 = the container length), yet `DecompressedSize`
returns the missing-magic error instead of accepting the file. -/
theorem C1_counterexample :
    F1 0 ≠ magic 0 ∧
    valid (nodeView F1 1) = true ∧ F1 32 = 1 ∧ cPtrMax (nodeView F1 1) = 33 ∧
    arity (nodeView F1 1) = 1 ∧
    (DecompressedSize F1 (initReader 33)).2 = Except.error Err.missingMagic :=
  ⟨by decide, by decide, by decide, by decide, by decide, by decide⟩

/-- Tail-placement sufficiency: when a container's first three bytes ARE
the magic sequence but the head placement does not yield a valid root,
and the container ends with a valid self-contained tail-placed root node
(last byte `aT` = the root arity, the node of size `nodeSize aT` ending
at the container's last byte valid with its own arity byte at most `aT`,
and `cPtrMax` equal to the container length), root location succeeds via
the tail placement, recording the tail offset, arity and decompressed
size. -/
theorem tailRootFound_aux {file : Buf} {r0 : ReaderState} {aT : Nat}
    {tOff : Int}
    (haTdef : aT = file ((r0.csize - 1).toNat))
    (htOff : tOff = r0.csize - (nodeSize aT : Int))
    (h32 : 32 ≤ r0.csize)
    (hm0 : file 0 = magic 0) (hm1 : file 1 = magic 1) (hm2 : file 2 = magic 2)
    (hhf : file 3 = 0 ∨ r0.csize < (nodeSize (file 3) : Int) ∨
      valid (nodeView file 0) = false ∨ cPtrMax (nodeView file 0) ≠ r0.csize)
    (haT : aT ≠ 0)
    (hsz : (nodeSize aT : Int) ≤ r0.csize)
    (hsc : arity (nodeView file tOff.toNat) ≤ aT)
    (hval : valid (nodeView file tOff.toNat) = true)
    (hmax : cPtrMax (nodeView file tOff.toNat) = r0.csize) :
    ∃ r', findRootNode file r0 = (r', none) ∧ r'.rootNodeCOffset = tOff ∧
      r'.rootNodeArity = aT ∧ r'.needToResolveSeekPosition = true ∧
      r'.decompressedSize = dPtrMax (nodeView file tOff.toNat) ∧
      r'.err = r0.err := by
  have hw : ∀ j, j < 4 → writeBytes file 0 4 r0.currNode j = file j := by
    intro j hj
    rw [writeBytes_lt file 0 hj]
    norm_num
  -- the head attempt fails
  have hhdEq : ∀ old : Buf,
      EqOn (writeBytes file 0 (nodeSize (file 3)) old) (nodeView file 0)
        (nodeSize (arity (writeBytes file 0 (nodeSize (file 3)) old))) := by
    intro old j hj
    have ha3 : arity (writeBytes file 0 (nodeSize (file 3)) old) = file 3 := by
      show writeBytes file 0 (nodeSize (file 3)) old 3 = file 3
      rw [writeBytes_lt file 0 (by have := nodeSize_pos (file 3); omega)]
      norm_num
    rw [ha3] at hj
    rw [writeBytes_lt file 0 hj]
    show file (Int.toNat 0 + j) = file (0 + j)
    norm_num
  have hT1pre : ∃ r2, tryRootNode file {r0 with currNode := writeBytes file 0 4 r0.currNode}
      (writeBytes file 0 4 r0.currNode 3) false = (r2, false, none) := by
    rw [hw 3 (by omega)]
    apply tryRootNode_fails
    rcases hhf with h | h | h | h
    · exact Or.inl h
    · exact Or.inr (Or.inl h)
    · refine Or.inr (Or.inr (Or.inl ?_))
      show valid (writeBytes file 0 (nodeSize (file 3))
        (writeBytes file 0 4 r0.currNode)) = false
      rw [valid_congr (hhdEq (writeBytes file 0 4 r0.currNode))]
      exact h
    · refine Or.inr (Or.inr (Or.inr ?_))
      show cPtrMax (writeBytes file 0 (nodeSize (file 3))
        (writeBytes file 0 4 r0.currNode)) ≠ r0.csize
      rw [cPtrMax_congr (hhdEq (writeBytes file 0 4 r0.currNode))]
      exact h
  obtain ⟨r2, hT1⟩ := hT1pre
  obtain ⟨k1, k2, k3, k4, k5, k6, k7, k8, k9⟩ := tryRootNode_notFound hT1
  have k1' : r2.csize = r0.csize := k1
  -- the tail attempt succeeds
  have haT2 : writeBytes file (r2.csize - 1) 1 r2.currNode 0 = aT := by
    rw [writeBytes_lt file (r2.csize - 1) (by omega)]
    rw [haTdef, k1']
    norm_num
  have htlEq : ∀ old : Buf,
      EqOn (writeBytes file (r2.csize - (nodeSize aT : Int)) (nodeSize aT) old)
        (nodeView file tOff.toNat)
        (nodeSize (arity (writeBytes file (r2.csize - (nodeSize aT : Int))
          (nodeSize aT) old))) := by
    intro old j hj
    have hoff : (r2.csize - (nodeSize aT : Int)).toNat = tOff.toNat := by
      rw [k1', ← htOff]
    have ha3 : arity (writeBytes file (r2.csize - (nodeSize aT : Int)) (nodeSize aT)
        old) = arity (nodeView file tOff.toNat) := by
      show writeBytes file (r2.csize - (nodeSize aT : Int)) (nodeSize aT) old 3 =
        arity (nodeView file tOff.toNat)
      rw [writeBytes_lt file _ (by have := nodeSize_pos aT; omega), hoff]
      rfl
    rw [ha3] at hj
    have hjlt : j < nodeSize aT := by
      have h16 := nodeSize_pos aT
      have hle : nodeSize (arity (nodeView file tOff.toNat)) ≤ nodeSize aT := by
        unfold nodeSize
        omega
      omega
    rw [writeBytes_lt file _ hjlt, hoff]
    rfl
  have hT2pre : ∃ r4, tryRootNode file
      {r2 with currNode := writeBytes file (r2.csize - 1) 1 r2.currNode}
      (writeBytes file (r2.csize - 1) 1 r2.currNode 0) true = (r4, true, none) := by
    rw [haT2]
    apply tryRootNode_succeeds haT (by rw [k1']; exact hsz)
    · show valid (writeBytes file (r2.csize - (nodeSize aT : Int)) (nodeSize aT)
        (writeBytes file (r2.csize - 1) 1 r2.currNode)) = true
      rw [valid_congr (htlEq (writeBytes file (r2.csize - 1) 1 r2.currNode))]
      exact hval
    · show cPtrMax (writeBytes file (r2.csize - (nodeSize aT : Int)) (nodeSize aT)
        (writeBytes file (r2.csize - 1) 1 r2.currNode)) = r2.csize
      rw [cPtrMax_congr (htlEq (writeBytes file (r2.csize - 1) 1 r2.currNode)), k1']
      exact hmax
  obtain ⟨r4, hT2⟩ := hT2pre
  obtain ⟨ga, gco, gco1, gco2, gcn, gval, gmax, gdec, gn, gra, gcs, ge, gi, gsp,
    gnc⟩ := tryRootNode_found hT2
  have hro1 : readAtOk r0.csize 0 4 = true := by
    unfold readAtOk
    exact decide_eq_true (by omega)
  have hro2 : readAtOk r2.csize (r2.csize - 1) 1 = true := by
    unfold readAtOk
    exact decide_eq_true (by omega)
  have hra' : r4.rootNodeArity = aT := by rw [gra, haT2]
  have hco' : r4.rootNodeCOffset = tOff := by
    rw [gco, haT2]
    show r2.csize - (nodeSize aT : Int) = tOff
    rw [k1', htOff]
  refine ⟨r4, ?_, hco', hra', gn, ?_, ?_⟩
  · unfold findRootNode
    rw [if_neg (by simp [hro1])]
    rw [if_neg (by
      rw [hw 0 (by omega), hw 1 (by omega), hw 2 (by omega)]
      simp [hm0, hm1, hm2])]
    simp only [hT1]
    rw [if_neg (by simp [hro2])]
    simp only [hT2]
  · rw [gdec]
    rw [show r4.currNode = writeBytes file (r2.csize - (nodeSize aT : Int))
      (nodeSize aT) (writeBytes file (r2.csize - 1) 1 r2.currNode) by
        rw [gcn, haT2, hco', htOff, ← k1']]
    exact dPtrMax_congr (htlEq (writeBytes file (r2.csize - 1) 1 r2.currNode))
  · rw [ge]
    exact k2

/-- C1 (amended): any container whose first four bytes are readable but
whose first three bytes are not the magic sequence is rejected by
`findRootNode` with the (latched) missing-magic error, the tail
placement never being probed; and whenever the first three bytes ARE
the magic sequence, the head placement does not yield a valid root, and
the container ends with a valid self-contained tail-placed root node
(last byte `aT` = the root arity, the `nodeSize aT`-byte node ending at
the last byte valid with its own arity byte at most `aT`, and `cPtrMax`
equal to the container length), root location succeeds via the tail
placement, recording the tail offset, arity and decompressed size. -/
theorem C1_amended_tail_root_found :
    (∀ (file : Buf) (r : ReaderState), 4 ≤ r.csize →
      (file 0 ≠ magic 0 ∨ file 1 ≠ magic 1 ∨ file 2 ≠ magic 2) →
      findRootNode file r =
        ({r with currNode := writeBytes file 0 4 r.currNode,
                 err := some Err.missingMagic}, some Err.missingMagic)) ∧
    (∀ (file : Buf) (r0 : ReaderState),
      32 ≤ r0.csize →
      file 0 = magic 0 → file 1 = magic 1 → file 2 = magic 2 →
      (file 3 = 0 ∨ r0.csize < (nodeSize (file 3) : Int) ∨
        valid (nodeView file 0) = false ∨ cPtrMax (nodeView file 0) ≠ r0.csize) →
      file ((r0.csize - 1).toNat) ≠ 0 →
      (nodeSize (file ((r0.csize - 1).toNat)) : Int) ≤ r0.csize →
      arity (nodeView file
          (r0.csize - (nodeSize (file ((r0.csize - 1).toNat)) : Int)).toNat) ≤
        file ((r0.csize - 1).toNat) →
      valid (nodeView file
        (r0.csize - (nodeSize (file ((r0.csize - 1).toNat)) : Int)).toNat) = true →
      cPtrMax (nodeView file
        (r0.csize - (nodeSize (file ((r0.csize - 1).toNat)) : Int)).toNat) =
        r0.csize →
      ∃ r', findRootNode file r0 = (r', none) ∧
        r'.rootNodeCOffset =
          r0.csize - (nodeSize (file ((r0.csize - 1).toNat)) : Int) ∧
        r'.rootNodeArity = file ((r0.csize - 1).toNat) ∧
        r'.needToResolveSeekPosition = true ∧
        r'.decompressedSize = dPtrMax (nodeView file
          (r0.csize - (nodeSize (file ((r0.csize - 1).toNat)) : Int)).toNat) ∧
        r'.err = r0.err) := by
  constructor
  · intro file r hcs hmm
    have hro : readAtOk r.csize 0 4 = true := by
      unfold readAtOk
      exact decide_eq_true (by omega)
    have hw : ∀ j, j < 4 → writeBytes file 0 4 r.currNode j = file j := by
      intro j hj
      rw [writeBytes_lt file 0 hj]
      norm_num
    unfold findRootNode
    rw [if_neg (by simp [hro])]
    rw [if_pos (by
      rcases hmm with h | h | h
      · exact Or.inl (by rw [hw 0 (by omega)]; exact h)
      · exact Or.inr (Or.inl (by rw [hw 1 (by omega)]; exact h))
      · exact Or.inr (Or.inr (by rw [hw 2 (by omega)]; exact h)))]
  · intro file r0 h32 hm0 hm1 hm2 hhf haT hsz hsc hval hmax
    exact tailRootFound_aux rfl rfl h32 hm0 hm1 hm2 hhf haT hsz hsc hval hmax

theorem C1_amended_witness :
    findRootNode F1 (initReader 33) =
      ({initReader 33 with
          currNode := writeBytes F1 0 4 (initReader 33).currNode,
          err := some Err.missingMagic}, some Err.missingMagic) ∧
    (∃ r', findRootNode F2 (initReader 37) = (r', none) ∧
      r'.rootNodeCOffset = 5 ∧ r'.rootNodeArity = 1 ∧
      r'.needToResolveSeekPosition = true ∧
      r'.decompressedSize = dPtrMax (nodeView F2 5) ∧
      r'.err = none) := by
  constructor
  · exact C1_amended_tail_root_found.1 F1 (initReader 33) (by decide)
      (Or.inl (by decide))
  · obtain ⟨r', h1, h2, h3, h4, h5, h6⟩ :=
      C1_amended_tail_root_found.2 F2 (initReader 37) (by decide) (by decide)
        (by decide) (by decide) (Or.inl (by decide)) (by decide) (by decide)
        (by decide) (by decide) (by decide)
    refine ⟨r', h1, ?_, ?_, h4, ?_, h6⟩
    · rw [h2]
      decide
    · rw [h3]
      decide
    · rw [h5]
      decide

/-- A successful `loadAndValidate`: when the bounds hold, the loaded child
is valid, and all four parent/child conditions are met, the call replaces
the scratch buffer by the loaded bytes and reports no error. -/
theorem loadAndValidate_succeeds {file : Buf} {r : ReaderState} {cOffset : Int}
    {pc pv : Nat} {pcm ccb cds : Int}
    (h1 : 0 ≤ cOffset) (h2 : cOffset ≤ r.csize - 4)
    (ha : file (cOffset.toNat + 3) ≠ 0)
    (h3 : (nodeSize (file (cOffset.toNat + 3)) : Int) ≤ r.csize)
    (h4 : cOffset ≤ r.csize - (nodeSize (file (cOffset.toNat + 3)) : Int))
    (hval : valid (writeBytes file cOffset (nodeSize (file (cOffset.toNat + 3)))
      (writeBytes file cOffset 4 r.currNode)) = true)
    (hsub : bitwiseSubset pc (codec (writeBytes file cOffset
      (nodeSize (file (cOffset.toNat + 3))) (writeBytes file cOffset 4 r.currNode))) = true)
    (hver : version (writeBytes file cOffset (nodeSize (file (cOffset.toNat + 3)))
      (writeBytes file cOffset 4 r.currNode)) ≤ pv)
    (hcm : ccb + cPtrMax (writeBytes file cOffset (nodeSize (file (cOffset.toNat + 3)))
      (writeBytes file cOffset 4 r.currNode)) ≤ pcm)
    (hds : cds = dPtrMax (writeBytes file cOffset (nodeSize (file (cOffset.toNat + 3)))
      (writeBytes file cOffset 4 r.currNode))) :
    loadAndValidate file r cOffset pc pv pcm ccb cds =
      ({r with currNode := (writeBytes file cOffset (nodeSize (file (cOffset.toNat + 3)))
        (writeBytes file cOffset 4 r.currNode))}, none) := by
  have hro4 : readAtOk r.csize cOffset 4 = true := by
    unfold readAtOk
    exact decide_eq_true (by omega)
  have ha4 : writeBytes file cOffset 4 r.currNode 3 = file (cOffset.toNat + 3) :=
    writeBytes_lt file cOffset (by omega) r.currNode
  have hroS : readAtOk r.csize cOffset (nodeSize (file (cOffset.toNat + 3))) = true := by
    unfold readAtOk
    exact decide_eq_true (by omega)
  have hL : load file {r with currNode := writeBytes file cOffset 4 r.currNode}
      cOffset (file (cOffset.toNat + 3)) =
      ({r with currNode := (writeBytes file cOffset
        (nodeSize (file (cOffset.toNat + 3))) (writeBytes file cOffset 4 r.currNode))},
        none) := by
    unfold load
    rw [if_neg ha, if_pos hroS]
  unfold loadAndValidate
  rw [if_neg (by omega), if_neg (by simp [hro4]), ha4, if_neg ha, if_neg (by omega)]
  simp only [hL]
  rw [if_neg (by simp [hval])]
  rw [if_neg (by
    simp only [not_or]
    exact ⟨by simp [hsub], by omega, by omega, by omega⟩)]

/-- One descent step on the self-referential container `F3` returns to the
same state: the root's only slot is a branch whose child is the root node
itself, every parent/child check passes (with equality, which the code
admits), and the biases stay zero.  Hence `resolveLoop` exhausts any fuel. -/
theorem F3_loop : ∀ (n : Nat) (r : ReaderState), r.csize = 32 → r.err = none →
    r.seekPosition = 0 → writeBytes F3 0 32 r.currNode = r.currNode →
    resolveLoop F3 r 0 0 n = none := by
  intro n
  induction n with
  | zero => intro r _ _ _ _; rfl
  | succ m ih =>
    intro r hcs herr hseek hcn
    have hEq : EqOn r.currNode (nodeView F3 0) (nodeSize (arity r.currNode)) := by
      intro j hj
      have ha : arity r.currNode = 1 := by
        rw [← hcn]
        show writeBytes F3 0 32 r.currNode 3 = 1
        rw [writeBytes_lt F3 0 (by omega)]
        decide
      rw [ha] at hj
      rw [← hcn, writeBytes_lt F3 0 (show j < 32 by unfold nodeSize at hj; omega)]
      show F3 (Int.toNat 0 + j) = F3 (0 + j)
      norm_num
    have ha1 : arity r.currNode = 1 := by rw [arity_congr hEq]; decide
    have hfcc : findChunkContaining r.currNode r.seekPosition 0 = some 0 := by
      rw [hseek, fcc_congr hEq]
      decide
    have hleaf : isLeaf r.currNode 0 = false := by
      rw [isLeaf_congr hEq (by omega)]
      decide
    have hcodec : codec r.currNode = 1 := by rw [codec_congr hEq]; decide
    have hverr : version r.currNode = 1 := by rw [version_congr hEq]; decide
    have hcoff : cOff r.currNode 0 0 = 0 := by rw [cOff_congr hEq (by omega) 0]; decide
    have hstag : sTag r.currNode 0 = 0 := by rw [sTag_congr hEq (by omega)]; decide
    have hpcm : (0:Int) + cPtrMax r.currNode = 32 := by
      rw [cPtrMax_congr hEq]
      decide
    have hccb : (if sTag r.currNode 0 < arity r.currNode
        then cOff r.currNode (sTag r.currNode 0) 0 else (0:Int)) = 0 := by
      rw [hstag, ha1, hcoff]
      simp
    have hdsz : dSize r.currNode 0 = 100 := by rw [dSize_congr hEq (by omega)]; decide
    have hBWfull : writeBytes F3 0 (nodeSize (F3 (Int.toNat 0 + 3)))
        (writeBytes F3 0 4 r.currNode) = r.currNode := by
      rw [show nodeSize (F3 (Int.toNat 0 + 3)) = 32 from by decide,
        writeBytes_absorb F3 0 (by omega) r.currNode, hcn]
    have hvalr : valid r.currNode = true := by rw [valid_congr hEq]; decide
    have hLAV : loadAndValidate F3 r 0 1 1 32 0 100 = (r, none) := by
      have hstep := @loadAndValidate_succeeds F3 r 0 1 1 32 0 100
        (by omega) (by omega) (by decide)
        (by rw [show nodeSize (F3 (Int.toNat (0:Int) + 3)) = 32 from by decide]; omega)
        (by rw [show nodeSize (F3 (Int.toNat (0:Int) + 3)) = 32 from by decide]; omega)
        (by rw [hBWfull]; exact hvalr)
        (by rw [hBWfull, hcodec]; decide)
        (by rw [hBWfull, hverr])
        (by rw [hBWfull]; omega)
        (by rw [hBWfull, dPtrMax_congr hEq]; decide)
      rw [hstep, hBWfull]
    unfold resolveLoop
    simp only [hfcc]
    rw [if_neg (by simp [hleaf])]
    rw [hcoff, hcodec, hverr, hpcm, hccb, hdsz,
      show dOff r.currNode 0 (0:Int) = 0 from rfl]
    simp only [hLAV]
    exact ih r hcs herr hseek hcn

/-! ### Claim C3 -/

/-- C3 is false on the code: descent does not always terminate.  For the
32-byte container `F3` — accepted by `initialise`, with decompressed size
100 — the root's only slot is a branch child located at CSpace offset 0,
i.e. the root itself.  Every parent/child check passes with equality (the
code only rejects a strict increase of the CSpace ceiling), so the walk in
`resolveSeekPosition` revisits the same node for ever: `NextChunk` exhausts
every fuel bound (returns `none` for all fuel). -/
theorem C3_descent_can_diverge :
    (DecompressedSize F3 (initReader 32)).2 = Except.ok 100 ∧
    (∀ fuel, NextChunk F3 (initReader 32) fuel = none) := by
  refine ⟨by decide, ?_⟩
  rcases hI : initialise F3 (initReader 32) with ⟨R, e⟩
  have he : e = none := by
    have h2 : (initialise F3 (initReader 32)).2 = none := by decide
    rw [hI] at h2
    exact h2
  subst he
  have hproj : ∀ {α : Type} (f : ReaderState → α),
      f R = f (initialise F3 (initReader 32)).1 := by
    intro α f
    rw [hI]
  have hntr : R.needToResolveSeekPosition = true := by
    rw [hproj (fun s => s.needToResolveSeekPosition)]
    decide
  have hdsz : R.decompressedSize = 100 := by
    rw [hproj (fun s => s.decompressedSize)]
    decide
  have hseek : R.seekPosition = 0 := by
    rw [hproj (fun s => s.seekPosition)]
    decide
  have hcs : R.csize = 32 := by
    rw [hproj (fun s => s.csize)]
    decide
  have harity : R.rootNodeArity = 1 := by
    rw [hproj (fun s => s.rootNodeArity)]
    decide
  have hoff : R.rootNodeCOffset = 0 := by
    rw [hproj (fun s => s.rootNodeCOffset)]
    decide
  have herr : R.err = none := by
    rw [hproj (fun s => s.err)]
    decide
  intro fuel
  unfold NextChunk
  simp only [hI]
  cases fuel with
  | zero => rfl
  | succ n =>
    unfold nextChunkLoop
    rw [if_pos (by rw [hntr])]
    rw [if_neg (by rw [hdsz, hseek]; omega)]
    have hres : ∀ (S : ReaderState), S.csize = 32 → S.err = none →
        S.seekPosition = 0 → S.rootNodeCOffset = 0 → S.rootNodeArity = 1 →
        resolveSeekPosition F3 S n = none := by
      intro S s1 s2 s3 s4 s5
      unfold resolveSeekPosition
      rw [s4, s5]
      have hro : readAtOk S.csize 0 (nodeSize 1) = true := by
        rw [s1]
        decide
      have hL : load F3 S 0 1 =
          ({S with currNode := (writeBytes F3 0 (nodeSize 1) S.currNode)}, none) := by
        unfold load
        rw [if_neg (by omega), if_pos hro]
      simp only [hL]
      refine F3_loop n _ ?_ ?_ ?_ ?_
      · exact s1
      · exact s2
      · exact s3
      · show writeBytes F3 0 32 (writeBytes F3 0 (nodeSize 1) S.currNode) =
          writeBytes F3 0 (nodeSize 1) S.currNode
        rw [show nodeSize 1 = 32 from rfl]
        exact writeBytes_idem F3 0 32 S.currNode
    simp only [hres {R with needToResolveSeekPosition := false} hcs herr hseek hoff harity]

/-! ### Claim C2 -/

/-- C2 is false on the code: the "missing index root node" error is
returned by `findRootNode` without being assigned to the sticky `err`
field (reader.go line 369 returns a fresh error without setting `r.err`),
and `initialized` was already set, so a subsequent public call proceeds as
if initialization had succeeded.  On `F5` (magic present, no valid root at
either placement) the first `DecompressedSize` reports the error, the
sticky state stays `none`, and the second call returns `(0, nil)` instead
of the same error. -/
theorem C2_missing_root_error_not_sticky :
    (DecompressedSize F5 (initReader 32)).2 = Except.error Err.missingRootNode ∧
    (DecompressedSize F5 (initReader 32)).1.err = none ∧
    (DecompressedSize F5 (DecompressedSize F5 (initReader 32)).1).2 = Except.ok 0 :=
  ⟨by decide, by decide, by decide⟩

/-! ### Claim C6 -/

/-- C6: on an initialized reader with a pending seek at or past the
decompressed size, `NextChunk` returns EndOfStream immediately with the
state unchanged (so no descent, node load, or latching happens), and —
concretely on `F4` — a later `SeekToChunkContaining 0` followed by
`NextChunk` still returns the chunk `[0, 100)`. -/
theorem C6_end_of_stream_immediate_not_latched :
    (∀ (file : Buf) (r : ReaderState) (fuel : Nat),
      r.err = none → r.initialized = true → r.needToResolveSeekPosition = true →
      r.decompressedSize ≤ r.seekPosition →
      NextChunk file r (fuel+1) = some (r, .error .endOfStream)) ∧
    ((NextChunk F4 (SeekToChunkContaining F4 (initReader 32) 100).1 5).map
      (fun p => match p.2 with | .error e => some e | .ok _ => none) =
      some (some Err.endOfStream)) ∧
    ((NextChunk F4 (SeekToChunkContaining F4
        ((NextChunk F4 (SeekToChunkContaining F4 (initReader 32) 100).1 5).getD
          (initReader 32, Except.error Err.endOfStream)).1 0).1 5).map
      (fun p => match p.2 with | .ok c => some c.DRange | .error _ => none) =
      some (some ((0:Int), (100:Int)))) := by
  refine ⟨?_, by decide, by decide⟩
  intro file r fuel he hi hn hds
  unfold NextChunk
  simp only [initialise_id he hi]
  unfold nextChunkLoop
  rw [if_pos (by rw [hn]), if_pos hds]

theorem C6_witness :
    NextChunk F4 (SeekToChunkContaining F4 (initReader 32) 100).1 5 =
      some ((SeekToChunkContaining F4 (initReader 32) 100).1,
        .error .endOfStream) := by
  apply C6_end_of_stream_immediate_not_latched.1
  · decide
  · decide
  · decide
  · decide

/-! ### Claim C7 -/

/-- C7: during descent, a child node that passes structural validation but
violates any one of the four parent/child consistency conditions (codec
not a bitwise subset, version above the parent's, CSpace ceiling exceeded,
or DSpace size mismatch) makes `loadAndValidate` return the
invalid-index-node error and latch it into the sticky error field. -/
theorem C7_parent_child_violation_latched {file : Buf} {r : ReaderState}
    {cOffset : Int} {pc pv : Nat} {pcm ccb cds : Int}
    (h1 : 0 ≤ cOffset) (h2 : cOffset ≤ r.csize - 4)
    (ha : file (cOffset.toNat + 3) ≠ 0)
    (h3 : (nodeSize (file (cOffset.toNat + 3)) : Int) ≤ r.csize)
    (h4 : cOffset ≤ r.csize - (nodeSize (file (cOffset.toNat + 3)) : Int))
    (hval : valid (writeBytes file cOffset (nodeSize (file (cOffset.toNat + 3)))
      (writeBytes file cOffset 4 r.currNode)) = true)
    (hviol : bitwiseSubset pc (codec (writeBytes file cOffset
        (nodeSize (file (cOffset.toNat + 3))) (writeBytes file cOffset 4 r.currNode)))
        = false ∨
      pv < version (writeBytes file cOffset (nodeSize (file (cOffset.toNat + 3)))
        (writeBytes file cOffset 4 r.currNode)) ∨
      pcm < ccb + cPtrMax (writeBytes file cOffset (nodeSize (file (cOffset.toNat + 3)))
        (writeBytes file cOffset 4 r.currNode)) ∨
      cds ≠ dPtrMax (writeBytes file cOffset (nodeSize (file (cOffset.toNat + 3)))
        (writeBytes file cOffset 4 r.currNode))) :
    (loadAndValidate file r cOffset pc pv pcm ccb cds).2 = some Err.invalidIndexNode ∧
    (loadAndValidate file r cOffset pc pv pcm ccb cds).1.err =
      some Err.invalidIndexNode := by
  have hro4 : readAtOk r.csize cOffset 4 = true := by
    unfold readAtOk
    exact decide_eq_true (by omega)
  have ha4 : writeBytes file cOffset 4 r.currNode 3 = file (cOffset.toNat + 3) :=
    writeBytes_lt file cOffset (by omega) r.currNode
  have hroS : readAtOk r.csize cOffset (nodeSize (file (cOffset.toNat + 3))) = true := by
    unfold readAtOk
    exact decide_eq_true (by omega)
  have hL : load file {r with currNode := writeBytes file cOffset 4 r.currNode}
      cOffset (file (cOffset.toNat + 3)) =
      ({r with currNode := (writeBytes file cOffset
        (nodeSize (file (cOffset.toNat + 3))) (writeBytes file cOffset 4 r.currNode))},
        none) := by
    unfold load
    rw [if_neg ha, if_pos hroS]
  unfold loadAndValidate
  rw [if_neg (by omega), if_neg (by simp [hro4]), ha4, if_neg ha, if_neg (by omega)]
  simp only [hL]
  rw [if_neg (by simp [hval])]
  rw [if_pos (by
    rcases hviol with h | h | h | h
    · exact Or.inl (by simp [h])
    · exact Or.inr (Or.inl h)
    · exact Or.inr (Or.inr (Or.inl h))
    · exact Or.inr (Or.inr (Or.inr h)))]
  exact ⟨rfl, rfl⟩

theorem C7_witness :
    (loadAndValidate F1 (initReader 33) 1 1 1 1000 0 101).2 =
      some Err.invalidIndexNode ∧
    (loadAndValidate F1 (initReader 33) 1 1 1 1000 0 101).1.err =
      some Err.invalidIndexNode :=
  C7_parent_child_violation_latched (by decide) (by decide) (by decide) (by decide)
    (by decide) (by decide) (Or.inr (Or.inr (Or.inr (by decide))))

/-! ### Descent invariants used for the seek/next containment claim -/

theorem initialise_ok_basic {file : Buf} {r r' : ReaderState}
    (h : initialise file r = (r', none)) :
    r'.err = none ∧ r'.initialized = true := by
  rcases her : r.err with _ | e
  · cases hin : r.initialized with
    | false =>
      obtain ⟨hg, -, -, -, -⟩ := initialise_ok_of_fresh her hin h
      exact ⟨hg.1, hg.2.1⟩
    | true =>
      rw [initialise_id her hin] at h
      have h1 : _ = r' := congrArg Prod.fst h
      subst h1
      exact ⟨her, hin⟩
  · unfold initialise at h
    rw [her] at h
    simp at h

theorem loadAndValidate_ok_state {file : Buf} {r : ReaderState} {cOffset : Int}
    {pc pv : Nat} {pcm ccb cds : Int} {r2 : ReaderState}
    (h : loadAndValidate file r cOffset pc pv pcm ccb cds = (r2, none)) :
    r2.seekPosition = r.seekPosition ∧
    r2.needToResolveSeekPosition = r.needToResolveSeekPosition ∧
    r2.err = r.err ∧ r2.csize = r.csize := by
  unfold loadAndValidate at h
  split at h
  · simp at h
  split at h
  · simp at h
  simp only [] at h
  split at h
  · simp at h
  split at h
  · simp at h
  rcases hL : load file {r with currNode := writeBytes file cOffset 4 r.currNode}
      cOffset (writeBytes file cOffset 4 r.currNode 3) with ⟨rl, el⟩
  cases el with
  | some e => simp only [hL] at h; simp at h
  | none =>
    simp only [hL] at h
    split at h
    · simp at h
    split at h
    · simp at h
    have h1 : rl = r2 := by simpa using congrArg Prod.fst h
    obtain ⟨-, -, -, h4⟩ := load_ok hL
    subst h1
    rw [h4]
    exact ⟨rfl, rfl, rfl, rfl⟩

/-- A successful `resolveSeekPosition` walk lands on a slot of the final
node that contains the (unchanged) seek position, provided the starting
`dBias` is at or below it; the seek position, resolve flag, error and
size fields pass through untouched. -/
theorem resolveLoop_found : ∀ (fuel : Nat) (file : Buf) (r : ReaderState)
    (cBias dBias : Int) (r' : ReaderState),
    resolveLoop file r cBias dBias fuel = some (r', none) →
    dBias ≤ r.seekPosition →
    r'.seekPosition = r.seekPosition ∧ 0 ≤ r'.nextChunk ∧
    r'.nextChunk.toNat < arity r'.currNode ∧
    dOff r'.currNode r'.nextChunk.toNat r'.currNodeDBias ≤ r'.seekPosition ∧
    r'.seekPosition < dOff r'.currNode (r'.nextChunk.toNat + 1) r'.currNodeDBias ∧
    r'.needToResolveSeekPosition = r.needToResolveSeekPosition ∧
    r'.err = r.err ∧ r'.csize = r.csize := by
  intro fuel
  induction fuel with
  | zero =>
    intro file r cBias dBias r' h hd
    simp [resolveLoop] at h
  | succ n ih =>
    intro file r cBias dBias r' h hd
    unfold resolveLoop at h
    rcases hF : findChunkContaining r.currNode r.seekPosition dBias with _ | i
    · simp only [hF] at h; simp at h
    · simp only [hF] at h
      unfold findChunkContaining at hF
      obtain ⟨s1, s2, s3, s4⟩ := fccAux_sound r.currNode r.seekPosition dBias
        (arity r.currNode) 0 i hF
      have hlow : dOff r.currNode i dBias ≤ r.seekPosition := by
        rcases Nat.eq_zero_or_pos i with h0 | hp
        · subst h0; simpa [dOff_zero] using hd
        · have h5 := s4 (i-1) (Nat.zero_le _) (by omega)
          have h6 : i - 1 + 1 = i := by omega
          rw [h6] at h5
          exact h5
      split at h
      · rw [Option.some_inj] at h
        have h1 : _ = r' := congrArg Prod.fst h
        subst h1
        have s2' : i < arity r.currNode := by omega
        exact ⟨rfl, Int.natCast_nonneg i, s2', hlow, s3, rfl, rfl, rfl⟩
      · rcases hLV : loadAndValidate file r (cOff r.currNode i cBias) (codec r.currNode)
            (version r.currNode) (cBias + cPtrMax r.currNode)
            (if sTag r.currNode i < arity r.currNode
              then cOff r.currNode (sTag r.currNode i) cBias else cBias)
            (dSize r.currNode i) with ⟨rch, ech⟩
        cases ech with
        | some e => simp only [hLV] at h; simp at h
        | none =>
          simp only [hLV] at h
          obtain ⟨p1, p2, p3, p4⟩ := loadAndValidate_ok_state hLV
          have hd2 : dOff r.currNode i dBias ≤ rch.seekPosition := by
            rw [p1]; exact hlow
          obtain ⟨q1, q2, q3, q4, q5, q6, q7, q8⟩ := ih file rch
            (if sTag r.currNode i < arity r.currNode
              then cOff r.currNode (sTag r.currNode i) cBias else cBias)
            (dOff r.currNode i dBias) r' h hd2
          exact ⟨q1.trans p1, q2, q3, q4, q5, q6.trans p2, q7.trans p3, q8.trans p4⟩

theorem resolveSeekPosition_found {file : Buf} {S : ReaderState} {n : Nat}
    {r' : ReaderState} (h : resolveSeekPosition file S n = some (r', none))
    (hd : 0 ≤ S.seekPosition) :
    r'.seekPosition = S.seekPosition ∧ 0 ≤ r'.nextChunk ∧
    r'.nextChunk.toNat < arity r'.currNode ∧
    dOff r'.currNode r'.nextChunk.toNat r'.currNodeDBias ≤ r'.seekPosition ∧
    r'.seekPosition < dOff r'.currNode (r'.nextChunk.toNat + 1) r'.currNodeDBias ∧
    r'.needToResolveSeekPosition = S.needToResolveSeekPosition ∧
    r'.err = S.err ∧ r'.csize = S.csize := by
  unfold resolveSeekPosition at h
  rcases hL : load file S S.rootNodeCOffset S.rootNodeArity with ⟨rl, el⟩
  cases el with
  | some e => simp only [hL] at h; simp at h
  | none =>
    simp only [hL] at h
    obtain ⟨-, -, -, h4⟩ := load_ok hL
    subst h4
    obtain ⟨q1, q2, q3, q4, q5, q6, q7, q8⟩ :=
      resolveLoop_found n file _ 0 0 r' h (by
        show (0:Int) ≤ S.seekPosition
        exact hd)
    exact ⟨q1, q2, q3, q4, q5, q6, q7, q8⟩

/-- If the current slot exists and is non-empty, the emission loop emits
it at once, advancing the cursor and the seek position. -/
theorem emitChunks_first {r : ReaderState} {k : Nat}
    (hk : r.nextChunk.toNat < arity r.currNode) (hnn : 0 ≤ r.nextChunk)
    (hne : dOff r.currNode r.nextChunk.toNat r.currNodeDBias <
      dOff r.currNode (r.nextChunk.toNat + 1) r.currNodeDBias) :
    emitChunks r (k+1) =
      ({r with
          nextChunk := r.nextChunk + 1,
          seekPosition := (chunk r.currNode r.nextChunk.toNat r.currNodeCBias
            r.currNodeDBias).DRange.2},
        some (chunk r.currNode r.nextChunk.toNat r.currNodeCBias r.currNodeDBias)) := by
  have hne2 : ¬((chunk r.currNode r.nextChunk.toNat r.currNodeCBias
      r.currNodeDBias).DRange.1 = (chunk r.currNode r.nextChunk.toNat
      r.currNodeCBias r.currNodeDBias).DRange.2) := ne_of_lt hne
  simp only [emitChunks]
  rw [if_pos (show r.nextChunk < (arity r.currNode : Int) by omega)]
  rw [if_neg hne2]

/-- A `NextChunk`-loop round entered with a pending, in-range,
non-negative seek position that yields a chunk yields one containing
that position. -/
theorem nextChunkLoop_ok_contains {file : Buf} {S : ReaderState} {n : Nat}
    {r2 : ReaderState} {c : Chunk}
    (hneed : S.needToResolveSeekPosition = true) (hs : 0 ≤ S.seekPosition)
    (h : nextChunkLoop file S (n+1) = some (r2, Except.ok c)) :
    c.DRange.1 ≤ S.seekPosition ∧ S.seekPosition < c.DRange.2 := by
  unfold nextChunkLoop at h
  rw [if_pos hneed] at h
  split at h
  · simp at h
  · rcases hR : resolveSeekPosition file {S with needToResolveSeekPosition := false} n
      with _ | ⟨rr, er⟩
    · simp only [hR] at h; simp at h
    · cases er with
      | some e => simp only [hR] at h; simp at h
      | none =>
        simp only [hR] at h
        obtain ⟨q1, q2, q3, q4, q5, q6, q7, q8⟩ := resolveSeekPosition_found hR hs
        obtain ⟨k, hk⟩ : ∃ k, (arity rr.currNode - rr.nextChunk).toNat = k + 1 :=
          ⟨(arity rr.currNode - rr.nextChunk).toNat - 1, by omega⟩
        rw [hk] at h
        simp only [emitChunks_first q3 q2 (lt_of_le_of_lt q4 q5),
          Option.some.injEq, Prod.mk.injEq, Except.ok.injEq] at h
        obtain ⟨h1, hc⟩ := h
        subst hc
        exact ⟨q1 ▸ q4, q1 ▸ q5⟩

/-! ### Claim C4 -/

/-- C4 is too strong as stated: `F6` is an accepted file (its root is a
valid branch node, so `DecompressedSize` reports 100) whose only child
node is garbage, so with `0 ∈ [0, 100)` the pair
seek(0)-then-NextChunk returns the invalid-index-node error rather than
an error-free chunk. -/
theorem C4_counterexample :
    (DecompressedSize F6 (initReader 64)).2 = Except.ok 100 ∧
    (SeekToChunkContaining F6 (initReader 64) 0).2 = none ∧
    ((NextChunk F6 (SeekToChunkContaining F6 (initReader 64) 0).1 5).map
      (fun p => match p.2 with | .error e => some e | .ok _ => none) =
      some (some Err.invalidIndexNode)) := ⟨by decide, by decide, by decide⟩

/-- C4 amended: error-free return is not guaranteed, but whenever
`SeekToChunkContaining d` succeeds and the following `NextChunk` does
return a chunk, that chunk contains `d`:
`c.DRange.low ≤ d < c.DRange.high`. -/
theorem C4_amended_chunk_contains_seek {file : Buf} {r : ReaderState} {d : Int}
    {r1 r2 : ReaderState} {fuel : Nat} {c : Chunk}
    (hS : SeekToChunkContaining file r d = (r1, none))
    (hN : NextChunk file r1 fuel = some (r2, Except.ok c)) :
    c.DRange.1 ≤ d ∧ d < c.DRange.2 := by
  obtain ⟨r0, hI, hd0, hr1⟩ := seek_ok hS
  obtain ⟨he0, hi0⟩ := initialise_ok_basic hI
  subst hr1
  unfold NextChunk at hN
  have hid : initialise file
      ({r0 with needToResolveSeekPosition := true, seekPosition := d}) =
      ({r0 with needToResolveSeekPosition := true, seekPosition := d}, none) :=
    initialise_id he0 hi0
  simp only [hid] at hN
  cases fuel with
  | zero => simp [nextChunkLoop] at hN
  | succ n =>
    exact nextChunkLoop_ok_contains rfl hd0 hN

theorem C4_witness : (0:Int) ≤ 50 ∧ (50:Int) < 100 :=
  @C4_amended_chunk_contains_seek F4 (initReader 32) 50
    (SeekToChunkContaining F4 (initReader 32) 50).1
    ((NextChunk F4 (SeekToChunkContaining F4 (initReader 32) 50).1 5).getD
      (initReader 32, Except.error Err.endOfStream)).1
    5
    { DRange := ((0:Int), (100:Int)), CPrimary := ((0:Int), (32:Int)),
      CSecondary := ((32:Int), (32:Int)), CTertiary := ((0:Int), (32:Int)),
      STag := 1, TTag := 0, Codec := 1 }
    rfl rfl

/-! ### Infrastructure for the full-read tiling claim -/

theorem EqOn_symm {b1 b2 : Buf} {n : Nat} (h : EqOn b1 b2 n) : EqOn b2 b1 n :=
  fun j hj => (h j hj).symm

/-- Reachable boundaries only depend on the node's `nodeSize (arity)`
prefix (children are re-read from the file in both cases). -/
theorem BdyIn_congr {file : Buf} {b1 b2 : Buf}
    (h : EqOn b1 b2 (nodeSize (arity b1))) {cBias dBias e : Int}
    (hb : BdyIn file b2 cBias dBias e) : BdyIn file b1 cBias dBias e := by
  have ha := arity_congr h
  cases hb with
  | base b cb db m e hm he =>
    exact .base b1 cBias dBias m e (by omega)
      (by rw [dOff_congr h (by omega) dBias]; exact he)
  | step b cb db j e hj hbr h1 h2 hch =>
    have hj1 : j < arity b1 := by omega
    have hs2 : sTag b1 j = sTag b2 j := sTag_congr h hj1
    have hif : (if sTag b1 j < arity b1 then cOff b1 (sTag b1 j) cBias else cBias) =
        (if sTag b2 j < arity b2 then cOff b2 (sTag b2 j) cBias else cBias) := by
      by_cases hst : sTag b1 j < arity b1
      · rw [if_pos hst, if_pos (by omega : sTag b2 j < arity b2),
          cOff_congr h hst cBias, hs2]
      · rw [if_neg hst, if_neg (by omega : ¬ sTag b2 j < arity b2)]
    refine .step b1 cBias dBias j e hj1 ?_ ?_ ?_ ?_
    · rw [isLeaf_congr h hj1]; exact hbr
    · rw [dOff_congr h (by omega) dBias]; exact h1
    · rw [dOff_congr h (by omega) dBias]; exact h2
    · rw [cOff_congr h hj1 cBias, dOff_congr h (by omega) dBias, hif]
      exact hch

theorem load_err {file : Buf} {r : ReaderState} {c : Int} {a : Nat}
    {r' : ReaderState} {e : Err} (h : load file r c a = (r', some e)) :
    e ≠ Err.endOfStream := by
  unfold load at h
  split at h
  · intro hq; subst hq; simp at h
  · split at h
    · simp at h
    · intro hq; subst hq; simp at h

theorem loadAndValidate_err {file : Buf} {r : ReaderState} {cOffset : Int}
    {pc pv : Nat} {pcm ccb cds : Int} {r2 : ReaderState} {e : Err}
    (h : loadAndValidate file r cOffset pc pv pcm ccb cds = (r2, some e)) :
    e ≠ Err.endOfStream := by
  unfold loadAndValidate at h
  split at h
  · intro hq; subst hq; simp at h
  split at h
  · intro hq; subst hq; simp at h
  simp only [] at h
  split at h
  · intro hq; subst hq; simp at h
  split at h
  · intro hq; subst hq; simp at h
  rcases hL : load file {r with currNode := writeBytes file cOffset 4 r.currNode}
      cOffset (writeBytes file cOffset 4 r.currNode 3) with ⟨rl, el⟩
  cases el with
  | some e2 =>
    simp only [hL] at h
    have h2 : e2 = e := by simpa using congrArg Prod.snd h
    subst h2
    exact load_err hL
  | none =>
    simp only [hL] at h
    split at h
    · intro hq; subst hq; simp at h
    split at h
    · intro hq; subst hq; simp at h
    · simp at h

theorem resolveLoop_err : ∀ (fuel : Nat) (file : Buf) (r : ReaderState)
    (cBias dBias : Int) (r' : ReaderState) (e : Err),
    resolveLoop file r cBias dBias fuel = some (r', some e) →
    e ≠ Err.endOfStream := by
  intro fuel
  induction fuel with
  | zero =>
    intro file r cBias dBias r' e h
    simp [resolveLoop] at h
  | succ n ih =>
    intro file r cBias dBias r' e h
    unfold resolveLoop at h
    rcases hF : findChunkContaining r.currNode r.seekPosition dBias with _ | i
    · simp only [hF] at h
      obtain ⟨-, h2⟩ : r = r' ∧ Err.panicked = e := by simpa using h
      subst h2
      decide
    · simp only [hF] at h
      split at h
      · simp at h
      · rcases hLV : loadAndValidate file r (cOff r.currNode i cBias) (codec r.currNode)
            (version r.currNode) (cBias + cPtrMax r.currNode)
            (if sTag r.currNode i < arity r.currNode
              then cOff r.currNode (sTag r.currNode i) cBias else cBias)
            (dSize r.currNode i) with ⟨rch, ech⟩
        cases ech with
        | some e2 =>
          simp only [hLV] at h
          obtain ⟨-, h2⟩ : rch = r' ∧ e2 = e := by simpa using h
          subst h2
          exact loadAndValidate_err hLV
        | none =>
          simp only [hLV] at h
          exact ih file rch _ _ r' e h

theorem resolveSeekPosition_err {file : Buf} {S : ReaderState} {n : Nat}
    {r' : ReaderState} {e : Err}
    (h : resolveSeekPosition file S n = some (r', some e)) :
    e ≠ Err.endOfStream := by
  unfold resolveSeekPosition at h
  rcases hL : load file S S.rootNodeCOffset S.rootNodeArity with ⟨rl, el⟩
  cases el with
  | some e2 =>
    simp only [hL] at h
    obtain ⟨-, h2⟩ : rl = r' ∧ e2 = e := by simpa using h
    subst h2
    exact load_err hL
  | none =>
    simp only [hL] at h
    exact resolveLoop_err n file rl 0 0 r' e h

/-- Everything a successful `loadAndValidate` guarantees about the loaded
child: structural validity, the DSpace-size consistency check, agreement
with the file bytes at the child's offset, and scalar-field preservation. -/
theorem loadAndValidate_ok_strong {file : Buf} {r : ReaderState} {cOffset : Int}
    {pc pv : Nat} {pcm ccb cds : Int} {r2 : ReaderState}
    (h : loadAndValidate file r cOffset pc pv pcm ccb cds = (r2, none)) :
    valid r2.currNode = true ∧
    dPtrMax r2.currNode = cds ∧
    EqOn r2.currNode (nodeView file cOffset.toNat) (nodeSize (arity r2.currNode)) ∧
    r2.seekPosition = r.seekPosition ∧
    r2.needToResolveSeekPosition = r.needToResolveSeekPosition ∧
    r2.err = r.err ∧ r2.csize = r.csize ∧
    r2.decompressedSize = r.decompressedSize ∧
    r2.rootNodeCOffset = r.rootNodeCOffset ∧
    r2.rootNodeArity = r.rootNodeArity ∧
    r2.initialized = r.initialized := by
  unfold loadAndValidate at h
  split at h
  · simp at h
  split at h
  · simp at h
  simp only [] at h
  split at h
  · simp at h
  split at h
  · simp at h
  rcases hL : load file {r with currNode := writeBytes file cOffset 4 r.currNode}
      cOffset (writeBytes file cOffset 4 r.currNode 3) with ⟨rl, el⟩
  cases el with
  | some e => simp only [hL] at h; simp at h
  | none =>
    simp only [hL] at h
    split at h
    · simp at h
    rename_i hvr
    have hvv : valid rl.currNode = true := by simpa using hvr
    split at h
    · simp at h
    rename_i hviol
    have hds : cds = dPtrMax rl.currNode := by
      rcases Decidable.em (cds = dPtrMax rl.currNode) with hq | hq
      · exact hq
      · exact absurd (Or.inr (Or.inr (Or.inr hq))) hviol
    have h1 : rl = r2 := by simpa using congrArg Prod.fst h
    obtain ⟨-, -, -, h4⟩ := load_ok hL
    subst h1
    have hB : rl.currNode = writeBytes file cOffset
        (nodeSize (writeBytes file cOffset 4 r.currNode 3))
        (writeBytes file cOffset 4 r.currNode) := by rw [h4]
    have haB : arity rl.currNode = writeBytes file cOffset 4 r.currNode 3 := by
      show rl.currNode 3 = writeBytes file cOffset 4 r.currNode 3
      rw [hB, writeBytes_lt file cOffset
          (by have := nodeSize_pos (writeBytes file cOffset 4 r.currNode 3); omega) _,
        writeBytes_lt file cOffset (by omega : (3:Nat) < 4) r.currNode]
    refine ⟨hvv, hds.symm, ?_, by rw [h4], by rw [h4], by rw [h4], by rw [h4],
      by rw [h4], by rw [h4], by rw [h4], by rw [h4]⟩
    intro j hj
    rw [haB] at hj
    show rl.currNode j = file (cOffset.toNat + j)
    rw [hB, writeBytes_lt file cOffset hj _]

/-- Full behaviour of the emission loop under the cursor invariant
`seekPosition = dOff(nextChunk)`: it either exhausts the node's slots
without moving the seek position (all remaining slots empty), or emits
the next non-empty slot, whose `DRange` starts exactly at the seek
position. -/
theorem emitChunks_run : ∀ (k : Nat) (r : ReaderState),
    valid r.currNode = true →
    r.seekPosition = dOff r.currNode r.nextChunk.toNat r.currNodeDBias →
    0 ≤ r.nextChunk →
    r.nextChunk.toNat + k = arity r.currNode →
    ∃ nc : Int,
      r.nextChunk ≤ nc ∧ 0 ≤ nc ∧ nc.toNat ≤ arity r.currNode ∧
      ((emitChunks r k = ({r with
          nextChunk := nc,
          seekPosition := dOff r.currNode nc.toNat r.currNodeDBias}, none) ∧
        nc.toNat = arity r.currNode ∧
        dOff r.currNode nc.toNat r.currNodeDBias = r.seekPosition) ∨
       (∃ c : Chunk, emitChunks r k = ({r with
          nextChunk := nc,
          seekPosition := dOff r.currNode nc.toNat r.currNodeDBias}, some c) ∧
        c.DRange.1 = r.seekPosition ∧
        c.DRange.1 < c.DRange.2 ∧
        c.DRange.2 = dOff r.currNode nc.toNat r.currNodeDBias)) := by
  intro k
  induction k with
  | zero =>
    intro r hv hseek hnn htrip
    refine ⟨r.nextChunk, le_refl _, hnn, by omega, Or.inl ⟨?_, by omega, hseek.symm⟩⟩
    rw [← hseek]
    rfl
  | succ n ih =>
    intro r hv hseek hnn htrip
    have hcond : r.nextChunk < (arity r.currNode : Int) := by omega
    have ht1 : (r.nextChunk + 1).toNat = r.nextChunk.toNat + 1 := by omega
    by_cases hemp : (chunk r.currNode r.nextChunk.toNat r.currNodeCBias
        r.currNodeDBias).DRange.1 = (chunk r.currNode r.nextChunk.toNat
        r.currNodeCBias r.currNodeDBias).DRange.2
    · have hred : emitChunks r (n+1) = emitChunks
          {r with
            nextChunk := r.nextChunk + 1,
            seekPosition := (chunk r.currNode r.nextChunk.toNat r.currNodeCBias
              r.currNodeDBias).DRange.2} n := by
        simp only [emitChunks]
        rw [if_pos hcond, if_pos hemp]
      have hback : (chunk r.currNode r.nextChunk.toNat r.currNodeCBias
          r.currNodeDBias).DRange.2 = r.seekPosition := by
        rw [← hemp]
        exact hseek.symm
      obtain ⟨nc, hle, hnc0, hncA, hout⟩ := ih
        {r with
          nextChunk := r.nextChunk + 1,
          seekPosition := (chunk r.currNode r.nextChunk.toNat r.currNodeCBias
            r.currNodeDBias).DRange.2}
        hv
        (by
          show (chunk r.currNode r.nextChunk.toNat r.currNodeCBias
            r.currNodeDBias).DRange.2 =
            dOff r.currNode (r.nextChunk + 1).toNat r.currNodeDBias
          rw [ht1]
          rfl)
        (by show (0:Int) ≤ r.nextChunk + 1; omega)
        (by show (r.nextChunk + 1).toNat + n = arity r.currNode; omega)
      have hle2 : r.nextChunk + 1 ≤ nc := hle
      have hncA2 : nc.toNat ≤ arity r.currNode := hncA
      rw [hred]
      refine ⟨nc, by omega, hnc0, hncA2, ?_⟩
      rcases hout with ⟨he, ha1, ha2⟩ | ⟨c2, he, hc1, hc2, hc3⟩
      · exact Or.inl ⟨he, ha1, ha2.trans hback⟩
      · exact Or.inr ⟨c2, he, hc1.trans hback, hc2, hc3⟩
    · have hlt : (chunk r.currNode r.nextChunk.toNat r.currNodeCBias
          r.currNodeDBias).DRange.1 < (chunk r.currNode r.nextChunk.toNat
          r.currNodeCBias r.currNodeDBias).DRange.2 := by
        have hmono : dOff r.currNode r.nextChunk.toNat r.currNodeDBias ≤
            dOff r.currNode (r.nextChunk.toNat + 1) r.currNodeDBias :=
          dOff_mono hv r.currNodeDBias _ _ (by omega) (by omega)
        exact lt_of_le_of_ne hmono hemp
      refine ⟨r.nextChunk + 1, by omega, by omega, by omega,
        Or.inr ⟨chunk r.currNode r.nextChunk.toNat r.currNodeCBias r.currNodeDBias,
          ?_, hseek.symm, hlt, ?_⟩⟩
      · simp only [emitChunks]
        rw [if_pos hcond, if_neg hemp, ht1]
        rfl
      · rw [ht1]
        rfl

/-- When the seek position `e` is a reachable boundary of node `b` and
the containing slot `i` is found (`dOff i ≤ e < dOff (i+1)`), the slot
starts exactly at `e` or descends into a branch child, and in either
case `e` is a reachable boundary of that slot's child subtree. -/
theorem BdyIn_descend {file : Buf} {b : Buf} {cBias dBias e : Int}
    (hbdy : BdyIn file b cBias dBias e) (hv : valid b = true)
    {i : Nat} (hi : i < arity b)
    (hlow : dOff b i dBias ≤ e) (hhigh : e < dOff b (i+1) dBias) :
    (dOff b i dBias = e ∨ isLeaf b i = false) ∧
    BdyIn file (nodeView file (cOff b i cBias).toNat)
      (if sTag b i < arity b then cOff b (sTag b i) cBias else cBias)
      (dOff b i dBias) e := by
  have hmono := dOff_mono hv dBias
  cases hbdy with
  | base _ _ _ m _ hm he =>
    have heq : dOff b i dBias = e := by
      rcases le_or_lt m i with hmi | him
      · have := hmono m i hmi (by omega)
        omega
      · have := hmono (i+1) m him hm
        omega
    refine ⟨Or.inl heq, ?_⟩
    exact .base _ _ _ 0 e (Nat.zero_le _) (by rw [dOff_zero]; omega)
  | step _ _ _ j _ hj hbr h1 h2 hch =>
    have hij : i = j := by
      rcases Nat.lt_trichotomy i j with hlt | heq | hgt
      · have := hmono (i+1) j hlt (by omega)
        omega
      · exact heq
      · have := hmono (j+1) i hgt (by omega)
        omega
    subst hij
    exact ⟨Or.inr hbr, hch⟩

/-- The full invariant of a successful descent: the final node is valid,
its found slot contains the unchanged seek position, its whole window
stays inside the entry window, every boundary of the final node above
the seek position is a reachable boundary of the entry node, and — if
the seek position itself was a reachable boundary — the found slot
starts exactly there.  Scalar fields pass through untouched. -/
theorem resolveLoop_run : ∀ (fuel : Nat) (file : Buf) (r : ReaderState)
    (cBias dBias : Int) (r' : ReaderState),
    resolveLoop file r cBias dBias fuel = some (r', none) →
    valid r.currNode = true →
    dBias ≤ r.seekPosition →
    valid r'.currNode = true ∧
    r'.seekPosition = r.seekPosition ∧
    0 ≤ r'.nextChunk ∧
    r'.nextChunk.toNat < arity r'.currNode ∧
    dOff r'.currNode r'.nextChunk.toNat r'.currNodeDBias ≤ r.seekPosition ∧
    r.seekPosition < dOff r'.currNode (r'.nextChunk.toNat + 1) r'.currNodeDBias ∧
    dOff r'.currNode (arity r'.currNode) r'.currNodeDBias ≤ dBias + dPtrMax r.currNode ∧
    (∀ s, s ≤ arity r'.currNode →
      r.seekPosition < dOff r'.currNode s r'.currNodeDBias →
      BdyIn file r.currNode cBias dBias (dOff r'.currNode s r'.currNodeDBias)) ∧
    (BdyIn file r.currNode cBias dBias r.seekPosition →
      dOff r'.currNode r'.nextChunk.toNat r'.currNodeDBias = r.seekPosition) ∧
    r'.needToResolveSeekPosition = r.needToResolveSeekPosition ∧
    r'.err = r.err ∧ r'.csize = r.csize ∧
    r'.decompressedSize = r.decompressedSize ∧
    r'.rootNodeCOffset = r.rootNodeCOffset ∧
    r'.rootNodeArity = r.rootNodeArity ∧
    r'.initialized = r.initialized := by
  intro fuel
  induction fuel with
  | zero =>
    intro file r cBias dBias r' h hv hd
    simp [resolveLoop] at h
  | succ n ih =>
    intro file r cBias dBias r' h hv hd
    unfold resolveLoop at h
    rcases hF : findChunkContaining r.currNode r.seekPosition dBias with _ | i
    · simp only [hF] at h; simp at h
    · simp only [hF] at h
      unfold findChunkContaining at hF
      obtain ⟨s1, s2, s3, s4⟩ := fccAux_sound r.currNode r.seekPosition dBias
        (arity r.currNode) 0 i hF
      have s2' : i < arity r.currNode := by omega
      have hlow : dOff r.currNode i dBias ≤ r.seekPosition := by
        rcases Nat.eq_zero_or_pos i with h0 | hp
        · subst h0; simpa [dOff_zero] using hd
        · have h5 := s4 (i-1) (Nat.zero_le _) (by omega)
          have h6 : i - 1 + 1 = i := by omega
          rw [h6] at h5
          exact h5
      have hmono := dOff_mono hv dBias
      have hane := valid_arity_ne_zero hv
      split at h
      · rename_i hleaf
        rw [Option.some_inj] at h
        have h1 : _ = r' := congrArg Prod.fst h
        subst h1
        refine ⟨hv, rfl, Int.natCast_nonneg i, s2', hlow, s3, ?_, ?_, ?_,
          rfl, rfl, rfl, rfl, rfl, rfl, rfl⟩
        · exact le_of_eq (dOff_arity hane dBias)
        · intro s hs hgt
          exact .base r.currNode cBias dBias s (dOff r.currNode s dBias) hs rfl
        · intro hbdy
          obtain ⟨hd9, -⟩ := BdyIn_descend hbdy hv s2' hlow s3
          rcases hd9 with heq | hfalse
          · exact heq
          · exact Bool.noConfusion (hleaf.symm.trans hfalse)
      · rename_i hnl
        have hbr2 : isLeaf r.currNode i = false := by simpa using hnl
        rcases hLV : loadAndValidate file r (cOff r.currNode i cBias) (codec r.currNode)
            (version r.currNode) (cBias + cPtrMax r.currNode)
            (if sTag r.currNode i < arity r.currNode
              then cOff r.currNode (sTag r.currNode i) cBias else cBias)
            (dSize r.currNode i) with ⟨rch, ech⟩
        cases ech with
        | some e => simp only [hLV] at h; simp at h
        | none =>
          simp only [hLV] at h
          obtain ⟨p1, p2, p3, ps, pn, per, pc, pdz, pro, pra, pi⟩ :=
            loadAndValidate_ok_strong hLV
          have hd2 : dOff r.currNode i dBias ≤ rch.seekPosition := by
            rw [ps]; exact hlow
          obtain ⟨q1, q2, q3, q4, q5, q6, q7, q8, q9, q10, q11, q12, q13,
            q14, q15, q16⟩ := ih file rch
            (if sTag r.currNode i < arity r.currNode
              then cOff r.currNode (sTag r.currNode i) cBias else cBias)
            (dOff r.currNode i dBias) r' h p1 hd2
          have hsz := dSize_eq r.currNode i dBias
          have h71 : dOff r'.currNode (arity r'.currNode) r'.currNodeDBias ≤
              dOff r.currNode (i+1) dBias := by
            rw [p2, hsz] at q7
            omega
          have h72 : dOff r.currNode (i+1) dBias ≤
              dOff r.currNode (arity r.currNode) dBias :=
            hmono (i+1) (arity r.currNode) (by omega) (le_refl _)
          have h73 : dOff r.currNode (arity r.currNode) dBias =
              dBias + dPtrMax r.currNode := dOff_arity hane dBias
          have haBN := arity_congr p3
          have hEq2 : EqOn (nodeView file (cOff r.currNode i cBias).toNat) rch.currNode
              (nodeSize (arity (nodeView file (cOff r.currNode i cBias).toNat))) := by
            rw [← haBN]
            exact EqOn_symm p3
          refine ⟨q1, q2.trans ps, q3, q4, ps ▸ q5, ps ▸ q6, by omega, ?_, ?_,
            q10.trans pn, q11.trans per, q12.trans pc, q13.trans pdz,
            q14.trans pro, q15.trans pra, q16.trans pi⟩
          · intro s hs hgt
            have hgt2 : rch.seekPosition < dOff r'.currNode s r'.currNodeDBias := by
              rw [ps]; exact hgt
            have hevB := q8 s hs hgt2
            have hevNV := BdyIn_congr hEq2 hevB
            have hup : dOff r'.currNode s r'.currNodeDBias ≤
                dOff r.currNode (i+1) dBias := by
              have := dOff_mono q1 r'.currNodeDBias s (arity r'.currNode) hs (le_refl _)
              omega
            rcases eq_or_lt_of_le hup with heq | hlt2
            · exact .base r.currNode cBias dBias (i+1) _ (by omega) heq
            · exact .step r.currNode cBias dBias i _ s2' hbr2
                (lt_of_le_of_lt hlow hgt) hlt2 hevNV
          · intro hbdy
            obtain ⟨-, hche⟩ := BdyIn_descend hbdy hv s2' hlow s3
            have hche2 := BdyIn_congr p3 hche
            have hbdy2 : BdyIn file rch.currNode
                (if sTag r.currNode i < arity r.currNode
                  then cOff r.currNode (sTag r.currNode i) cBias else cBias)
                (dOff r.currNode i dBias) rch.seekPosition := by
              rw [ps]; exact hche2
            have h9 := q9 hbdy2
            rw [ps] at h9
            exact h9

/-- Reloading the root region over any scratch buffer reproduces the
canonical root node on its own prefix, provided the root is
self-contained (`GoodRoot`). -/
theorem root_reload_eqOn {file : Buf} {S : ReaderState} (hg : GoodRoot file S) :
    EqOn (writeBytes file S.rootNodeCOffset (nodeSize S.rootNodeArity) S.currNode)
      (nodeView file S.rootNodeCOffset.toNat)
      (nodeSize (arity (writeBytes file S.rootNodeCOffset
        (nodeSize S.rootNodeArity) S.currNode))) := by
  obtain ⟨-, -, -, -, hg5, -⟩ := hg
  have h3lt : (3:Nat) < nodeSize S.rootNodeArity := by
    have := nodeSize_pos S.rootNodeArity
    omega
  have haEq : arity (writeBytes file S.rootNodeCOffset (nodeSize S.rootNodeArity)
      S.currNode) = arity (nodeView file S.rootNodeCOffset.toNat) := by
    show writeBytes file S.rootNodeCOffset (nodeSize S.rootNodeArity) S.currNode 3 =
      nodeView file S.rootNodeCOffset.toNat 3
    rw [writeBytes_lt file S.rootNodeCOffset h3lt S.currNode]
    rfl
  intro j hj
  rw [haEq] at hj
  have hjlt : j < nodeSize S.rootNodeArity := by
    unfold nodeSize at hj ⊢
    omega
  rw [writeBytes_lt file S.rootNodeCOffset hjlt S.currNode]
  rfl

/-- `resolveLoop_run` lifted through the root reload performed by
`resolveSeekPosition`: the entry node becomes the canonical root region,
whose window is `[0, decompressedSize)`. -/
theorem resolveSeekPosition_run {file : Buf} {S : ReaderState} {n : Nat}
    {rr : ReaderState}
    (h : resolveSeekPosition file S n = some (rr, none))
    (hg : GoodRoot file S) (hs0 : 0 ≤ S.seekPosition) :
    valid rr.currNode = true ∧
    rr.seekPosition = S.seekPosition ∧
    0 ≤ rr.nextChunk ∧
    rr.nextChunk.toNat < arity rr.currNode ∧
    dOff rr.currNode rr.nextChunk.toNat rr.currNodeDBias ≤ S.seekPosition ∧
    S.seekPosition < dOff rr.currNode (rr.nextChunk.toNat + 1) rr.currNodeDBias ∧
    dOff rr.currNode (arity rr.currNode) rr.currNodeDBias ≤ S.decompressedSize ∧
    (∀ s, s ≤ arity rr.currNode →
      S.seekPosition < dOff rr.currNode s rr.currNodeDBias →
      BdyIn file (nodeView file S.rootNodeCOffset.toNat) 0 0
        (dOff rr.currNode s rr.currNodeDBias)) ∧
    (BdyIn file (nodeView file S.rootNodeCOffset.toNat) 0 0 S.seekPosition →
      dOff rr.currNode rr.nextChunk.toNat rr.currNodeDBias = S.seekPosition) ∧
    rr.needToResolveSeekPosition = S.needToResolveSeekPosition ∧
    rr.err = S.err ∧ rr.csize = S.csize ∧
    rr.decompressedSize = S.decompressedSize ∧
    rr.rootNodeCOffset = S.rootNodeCOffset ∧
    rr.rootNodeArity = S.rootNodeArity ∧
    rr.initialized = S.initialized := by
  unfold resolveSeekPosition at h
  rcases hL : load file S S.rootNodeCOffset S.rootNodeArity with ⟨rl, el⟩
  cases el with
  | some e => simp only [hL] at h; simp at h
  | none =>
    simp only [hL] at h
    obtain ⟨-, -, -, h4⟩ := load_ok hL
    subst h4
    have hEqB := root_reload_eqOn hg
    have hvB : valid (writeBytes file S.rootNodeCOffset (nodeSize S.rootNodeArity)
        S.currNode) = true := by
      rw [valid_congr hEqB]
      exact hg.2.2.2.1
    have hdB : dPtrMax (writeBytes file S.rootNodeCOffset (nodeSize S.rootNodeArity)
        S.currNode) = S.decompressedSize := by
      rw [dPtrMax_congr hEqB]
      exact hg.2.2.2.2.2
    have haEq2 := arity_congr hEqB
    have hEqRC : EqOn (nodeView file S.rootNodeCOffset.toNat)
        (writeBytes file S.rootNodeCOffset (nodeSize S.rootNodeArity) S.currNode)
        (nodeSize (arity (nodeView file S.rootNodeCOffset.toNat))) := by
      rw [← haEq2]
      exact EqOn_symm hEqB
    obtain ⟨q1, q2, q3, q4, q5, q6, q7, q8, q9, q10, q11, q12, q13, q14, q15, q16⟩ :=
      resolveLoop_run n file
        {S with currNode :=
          writeBytes file S.rootNodeCOffset (nodeSize S.rootNodeArity) S.currNode}
        0 0 rr h hvB hs0
    have q7s : dOff rr.currNode (arity rr.currNode) rr.currNodeDBias ≤
        0 + dPtrMax (writeBytes file S.rootNodeCOffset (nodeSize S.rootNodeArity)
          S.currNode) := q7
    rw [hdB] at q7s
    refine ⟨q1, q2, q3, q4, q5, q6, by omega, ?_, ?_, q10, q11, q12, q13,
      q14, q15, q16⟩
    · intro s hs hgt
      exact BdyIn_congr hEqRC (q8 s hs hgt)
    · intro hbdy
      exact q9 (BdyIn_congr hEqB hbdy)

/-- One public-call round of `nextChunkLoop` under `RunInv`: a returned
chunk starts exactly at the entry seek position, is non-empty, ends at
the new seek position, and re-establishes `RunInv`; EndOfStream is
returned exactly when the seek position has reached the decompressed
size. -/
theorem nextChunkLoop_run : ∀ (fuel : Nat) (file : Buf) (S : ReaderState)
    (r2 : ReaderState) (out : Except Err Chunk),
    RunInv file S →
    nextChunkLoop file S fuel = some (r2, out) →
    (∀ c, out = Except.ok c →
      RunInv file r2 ∧ r2.decompressedSize = S.decompressedSize ∧
      c.DRange.1 = S.seekPosition ∧ c.DRange.1 < c.DRange.2 ∧
      c.DRange.2 = r2.seekPosition) ∧
    (out = Except.error Err.endOfStream →
      S.seekPosition = S.decompressedSize) := by
  intro fuel
  induction fuel with
  | zero =>
    intro file S r2 out hInv h
    simp [nextChunkLoop] at h
  | succ n ih =>
    intro file S r2 out hInv h
    obtain ⟨hg, herr, hinit, hs0, hsd, hbT, hbF⟩ := hInv
    unfold nextChunkLoop at h
    by_cases hneed : S.needToResolveSeekPosition = true
    · rw [if_pos hneed] at h
      split at h
      · rename_i hEOS
        obtain ⟨h1, h2⟩ : S = r2 ∧ Except.error Err.endOfStream = out := by
          simpa using h
        subst h2
        refine ⟨fun c hc => Except.noConfusion hc, fun _ => by omega⟩
      · rename_i hnEOS
        rcases hR : resolveSeekPosition file
            {S with needToResolveSeekPosition := false} n with _ | ⟨rr, er⟩
        · simp only [hR] at h; simp at h
        · cases er with
          | some e =>
            simp only [hR] at h
            obtain ⟨h1, h2⟩ : rr = r2 ∧ Except.error e = out := by simpa using h
            subst h2
            refine ⟨fun c hc => Except.noConfusion hc, fun hq => ?_⟩
            have he : e = Err.endOfStream := by simpa using hq
            exact absurd he (resolveSeekPosition_err hR)
          | none =>
            simp only [hR] at h
            obtain ⟨q1, q2, q3, q4, q5, q6, q7, q8, q9, q10, q11, q12, q13,
              q14, q15, q16⟩ := resolveSeekPosition_run hR hg hs0
            have hfound : dOff rr.currNode rr.nextChunk.toNat rr.currNodeDBias =
                S.seekPosition := q9 (hbT hneed)
            have hseekrr : rr.seekPosition =
                dOff rr.currNode rr.nextChunk.toNat rr.currNodeDBias := by
              rw [q2]
              exact hfound.symm
            have hkk : rr.nextChunk.toNat +
                (arity rr.currNode - rr.nextChunk).toNat = arity rr.currNode := by
              omega
            obtain ⟨nc, e1, e2, e3, hout⟩ := emitChunks_run
              ((arity rr.currNode - rr.nextChunk).toNat) rr q1 hseekrr q3 hkk
            rcases hout with ⟨he, ha1, ha2⟩ | ⟨c, he, hc1, hc2, hc3⟩
            · exfalso
              rw [ha1] at ha2
              have hm := dOff_mono q1 rr.currNodeDBias (rr.nextChunk.toNat + 1)
                (arity rr.currNode) (by omega) (le_refl _)
              have hq2 : rr.seekPosition = S.seekPosition := q2
              omega
            · simp only [he] at h
              obtain ⟨h1, h2⟩ : ({rr with
                  nextChunk := nc,
                  seekPosition := dOff rr.currNode nc.toNat rr.currNodeDBias} :
                    ReaderState) = r2 ∧ Except.ok c = out := by simpa using h
              subst h2
              subst h1
              refine ⟨fun c2 hc' => ?_, fun hq => Except.noConfusion hq⟩
              have hcc : c = c2 := by simpa using hc'
              subst hcc
              have hlowD : S.seekPosition < dOff rr.currNode nc.toNat
                  rr.currNodeDBias := by
                have hx1 : c.DRange.1 = S.seekPosition := hc1.trans q2
                omega
              have hDle : dOff rr.currNode nc.toNat rr.currNodeDBias ≤
                  dOff rr.currNode (arity rr.currNode) rr.currNodeDBias :=
                dOff_mono q1 rr.currNodeDBias nc.toNat (arity rr.currNode) e3
                  (le_refl _)
              refine ⟨⟨⟨?_, ?_, ?_, ?_, ?_, ?_⟩, ?_, ?_, ?_, ?_, ?_, ?_⟩,
                q13, hc1.trans q2, hc2, hc3⟩
              · show (0:Int) ≤ rr.rootNodeCOffset
                rw [q14]
                exact hg.1
              · show rr.rootNodeCOffset + (nodeSize rr.rootNodeArity : Int) ≤
                  rr.csize
                rw [q14, q15, q12]
                exact hg.2.1
              · show rr.rootNodeArity ≠ 0
                rw [q15]
                exact hg.2.2.1
              · show valid (nodeView file rr.rootNodeCOffset.toNat) = true
                rw [q14]
                exact hg.2.2.2.1
              · show arity (nodeView file rr.rootNodeCOffset.toNat) ≤
                  rr.rootNodeArity
                rw [q14, q15]
                exact hg.2.2.2.2.1
              · show dPtrMax (nodeView file rr.rootNodeCOffset.toNat) =
                  rr.decompressedSize
                rw [q14, q13]
                exact hg.2.2.2.2.2
              · show rr.err = none
                rw [q11]
                exact herr
              · show rr.initialized = true
                rw [q16]
                exact hinit
              · show (0:Int) ≤ dOff rr.currNode nc.toNat rr.currNodeDBias
                omega
              · show dOff rr.currNode nc.toNat rr.currNodeDBias ≤
                  rr.decompressedSize
                rw [q13]
                omega
              · intro hq
                have hnf : rr.needToResolveSeekPosition = false := q10
                exact Bool.noConfusion (hnf.symm.trans
                  (show rr.needToResolveSeekPosition = true from hq))
              · intro _
                refine ⟨q1, e2, e3, rfl, ?_, ?_⟩
                · show dOff rr.currNode (arity rr.currNode) rr.currNodeDBias ≤
                    rr.decompressedSize
                  rw [q13]
                  exact q7
                · intro s hs hD
                  have hD2 : dOff rr.currNode nc.toNat rr.currNodeDBias ≤
                      dOff rr.currNode s rr.currNodeDBias := hD
                  show BdyIn file (nodeView file rr.rootNodeCOffset.toNat) 0 0
                    (dOff rr.currNode s rr.currNodeDBias)
                  rw [q14]
                  exact q8 s hs (by omega)
    · have hneedF : S.needToResolveSeekPosition = false := by simpa using hneed
      rw [if_neg hneed] at h
      obtain ⟨w1, w2, w3, w4, w5, w6⟩ := hbF hneedF
      have hkk : S.nextChunk.toNat + (arity S.currNode - S.nextChunk).toNat =
          arity S.currNode := by omega
      obtain ⟨nc, e1, e2, e3, hout⟩ := emitChunks_run
        ((arity S.currNode - S.nextChunk).toNat) S w1 w4 w2 hkk
      rcases hout with ⟨he, ha1, ha2⟩ | ⟨c, he, hc1, hc2, hc3⟩
      · simp only [he] at h
        have hInv2 : RunInv file {({S with
            nextChunk := nc,
            seekPosition := dOff S.currNode nc.toNat S.currNodeDBias} :
              ReaderState) with needToResolveSeekPosition := true} := by
          refine ⟨hg, herr, hinit, ?_, ?_, ?_, ?_⟩
          · show (0:Int) ≤ dOff S.currNode nc.toNat S.currNodeDBias
            rw [ha2]
            exact hs0
          · show dOff S.currNode nc.toNat S.currNodeDBias ≤ S.decompressedSize
            rw [ha2]
            exact hsd
          · intro _
            show BdyIn file (nodeView file S.rootNodeCOffset.toNat) 0 0
              (dOff S.currNode nc.toNat S.currNodeDBias)
            exact w6 nc.toNat e3 (le_of_eq ha2.symm)
          · intro hq
            exact Bool.noConfusion (show true = false from hq)
        obtain ⟨ihok, iheos⟩ := ih file _ r2 out hInv2 h
        refine ⟨fun c hc => ?_, fun hq => ?_⟩
        · obtain ⟨hri, hdz, hf1, hf2, hf3⟩ := ihok c hc
          exact ⟨hri, hdz, hf1.trans ha2, hf2, hf3⟩
        · exact ha2.symm.trans (iheos hq)
      · simp only [he] at h
        obtain ⟨h1, h2⟩ : ({S with
            nextChunk := nc,
            seekPosition := dOff S.currNode nc.toNat S.currNodeDBias} :
              ReaderState) = r2 ∧ Except.ok c = out := by simpa using h
        subst h2
        subst h1
        refine ⟨fun c2 hc' => ?_, fun hq => Except.noConfusion hq⟩
        have hcc : c = c2 := by simpa using hc'
        subst hcc
        have hlowD : S.seekPosition < dOff S.currNode nc.toNat S.currNodeDBias := by
          omega
        have hDle : dOff S.currNode nc.toNat S.currNodeDBias ≤
            dOff S.currNode (arity S.currNode) S.currNodeDBias :=
          dOff_mono w1 S.currNodeDBias nc.toNat (arity S.currNode) e3 (le_refl _)
        refine ⟨⟨hg, herr, hinit, ?_, ?_, ?_, ?_⟩, rfl, hc1, hc2, hc3⟩
        · show (0:Int) ≤ dOff S.currNode nc.toNat S.currNodeDBias
          omega
        · show dOff S.currNode nc.toNat S.currNodeDBias ≤ S.decompressedSize
          omega
        · intro hq
          exact Bool.noConfusion (hneedF.symm.trans
            (show S.needToResolveSeekPosition = true from hq))
        · intro _
          refine ⟨w1, e2, e3, rfl, w5, ?_⟩
          intro s hs hD
          have hD2 : dOff S.currNode nc.toNat S.currNodeDBias ≤
              dOff S.currNode s S.currNodeDBias := hD
          show BdyIn file (nodeView file S.rootNodeCOffset.toNat) 0 0
            (dOff S.currNode s S.currNodeDBias)
          exact w6 s hs (by omega)

/-- `nextChunkLoop_run` lifted to the public `NextChunk` (which is a
no-op initialisation under `RunInv`). -/
theorem NextChunk_run_step {file : Buf} {S : ReaderState} {fuel : Nat}
    {r2 : ReaderState} {out : Except Err Chunk}
    (hInv : RunInv file S) (h : NextChunk file S fuel = some (r2, out)) :
    (∀ c, out = Except.ok c →
      RunInv file r2 ∧ r2.decompressedSize = S.decompressedSize ∧
      c.DRange.1 = S.seekPosition ∧ c.DRange.1 < c.DRange.2 ∧
      c.DRange.2 = r2.seekPosition) ∧
    (out = Except.error Err.endOfStream →
      S.seekPosition = S.decompressedSize) := by
  unfold NextChunk at h
  simp only [initialise_id hInv.2.1 hInv.2.2.1] at h
  exact nextChunkLoop_run fuel file S r2 out hInv h

/-- Chaining `NextChunk_run_step` along a whole read: from any `RunInv`
state, a run that ends in EndOfStream tiles exactly the DSpace interval
from the current seek position to the decompressed size. -/
theorem run_tiles : ∀ (k : Nat) (file : Buf) (S : ReaderState) (nfuel : Nat)
    (l : List Chunk), RunInv file S →
    run file S nfuel k = some (l, Err.endOfStream) →
    Tiles S.seekPosition l S.decompressedSize := by
  intro k
  induction k with
  | zero =>
    intro file S nfuel l hInv h
    simp [run] at h
  | succ n ih =>
    intro file S nfuel l hInv h
    unfold run at h
    rcases hN : NextChunk file S nfuel with _ | ⟨r2, out⟩
    · simp only [hN] at h; simp at h
    · simp only [hN] at h
      obtain ⟨hok, heos⟩ := NextChunk_run_step hInv hN
      cases out with
      | error e =>
        obtain ⟨h1, h2⟩ : ([] : List Chunk) = l ∧ e = Err.endOfStream := by
          simpa using h
        subst h1
        subst h2
        exact heos rfl
      | ok c =>
        rcases hrun : run file r2 nfuel n with _ | ⟨l2, e2⟩
        · simp only [hrun] at h; simp at h
        · simp only [hrun] at h
          obtain ⟨h1, h2⟩ : c :: l2 = l ∧ e2 = Err.endOfStream := by simpa using h
          subst h1
          subst h2
          obtain ⟨hri, hdz, hf1, hf2, hf3⟩ := hok c rfl
          have ht := ih file r2 nfuel l2 hri hrun
          refine ⟨hf1, by omega, ?_⟩
          rw [hf3, ← hdz]
          exact ht

/-! ### Claim C5 -/

/-- C5 is too strong as stated: on the accepted file `F6` (valid branch
root, decompressed size 100, garbage child) the full read from seek(0)
stops at the invalid-index-node error after producing no chunks, so it
never reaches EndOfStream and covers nothing of `[0, 100)`. -/
theorem C5_counterexample :
    (DecompressedSize F6 (initReader 64)).2 = Except.ok 100 ∧
    (SeekToChunkContaining F6 (initReader 64) 0).2 = none ∧
    run F6 (SeekToChunkContaining F6 (initReader 64) 0).1 5 2 =
      some ([], Err.invalidIndexNode) := ⟨by decide, by decide, by decide⟩

/-- C5 amended: for a fresh reader whose root placement is
self-contained (the recorded root arity bounds the root node's own
arity byte), if the full read from seek(0) does reach EndOfStream, then
the chunks it produced tile `[0, decompressedSize)` exactly: non-empty,
in increasing order, without gaps or overlaps. -/
theorem C5_amended_full_read_tiles {file : Buf} {r r1 : ReaderState}
    {nfuel k : Nat} {l : List Chunk}
    (hfresh : r.err = none) (hini : r.initialized = false)
    (hS : SeekToChunkContaining file r 0 = (r1, none))
    (hsc : arity r1.currNode ≤ r1.rootNodeArity)
    (hrun : run file r1 nfuel k = some (l, Err.endOfStream)) :
    Tiles 0 l r1.decompressedSize := by
  obtain ⟨r0, hI, -, hr1⟩ := seek_ok hS
  obtain ⟨hGI, hneed0, hcs0, hsp0, hnc0⟩ := initialise_ok_of_fresh hfresh hini hI
  obtain ⟨g1, g2, g3, g4, g5, g6, g7, g8, g9, g10⟩ := hGI
  subst hr1
  have hsc2 : arity r0.currNode ≤ r0.rootNodeArity := hsc
  have hEqRC : EqOn r0.currNode (nodeView file r0.rootNodeCOffset.toNat)
      (nodeSize (arity r0.currNode)) := by
    intro j hj
    have hj2 : j < nodeSize r0.rootNodeArity := by
      unfold nodeSize at hj ⊢
      omega
    rw [← congrFun g10 j, writeBytes_lt file r0.rootNodeCOffset hj2 r0.currNode]
    rfl
  have hInv : RunInv file
      {r0 with needToResolveSeekPosition := true, seekPosition := 0} := by
    refine ⟨⟨g7, g8, g6, ?_, ?_, ?_⟩, g1, g2, le_refl _, ?_, ?_, ?_⟩
    · show valid (nodeView file r0.rootNodeCOffset.toNat) = true
      rw [← valid_congr hEqRC]
      exact g3
    · show arity (nodeView file r0.rootNodeCOffset.toNat) ≤ r0.rootNodeArity
      rw [← arity_congr hEqRC]
      exact hsc2
    · show dPtrMax (nodeView file r0.rootNodeCOffset.toNat) = r0.decompressedSize
      rw [← dPtrMax_congr hEqRC]
      exact g5.symm
    · show (0:Int) ≤ r0.decompressedSize
      rw [g5]
      exact u48LE_nonneg _ _
    · intro _
      show BdyIn file (nodeView file r0.rootNodeCOffset.toNat) 0 0 0
      exact .base _ _ _ 0 0 (Nat.zero_le _) (by rw [dOff_zero])
    · intro hq
      exact Bool.noConfusion (show true = false from hq)
  exact run_tiles k file _ nfuel l hInv hrun

theorem C5_witness : Tiles 0
    [{ DRange := ((0:Int), (100:Int)), CPrimary := ((0:Int), (32:Int)),
       CSecondary := ((32:Int), (32:Int)), CTertiary := ((0:Int), (32:Int)),
       STag := 1, TTag := 0, Codec := 1 }] 100 :=
  @C5_amended_full_read_tiles F4 (initReader 32)
    (SeekToChunkContaining F4 (initReader 32) 0).1 5 2
    [{ DRange := ((0:Int), (100:Int)), CPrimary := ((0:Int), (32:Int)),
       CSecondary := ((32:Int), (32:Int)), CTertiary := ((0:Int), (32:Int)),
       STag := 1, TTag := 0, Codec := 1 }]
    rfl rfl rfl (by decide) (by decide)

/-! ### Claim C8 -/

/-- C8: for every node buffer on which `valid` returns true and every pair
`(d, dBias)` satisfying `dBias ≤ d < dBias + dPtrMax`, `findChunkContaining`
returns (no panic) the smallest slot index `i` such that
`dOff(i+1, dBias) > d`; that slot moreover contains `d`. -/
theorem C8_findChunkContaining_smallest {b : Buf} (h : valid b = true)
    {d dBias : Int} (h1 : dBias ≤ d) (h2 : d < dBias + dPtrMax b) :
    ∃ i, findChunkContaining b d dBias = some i ∧ i < arity b ∧
      dOff b i dBias ≤ d ∧ d < dOff b (i+1) dBias ∧
      (∀ j, j < i → dOff b (j+1) dBias ≤ d) :=
  findChunkContaining_spec h h1 h2

theorem C8_witness :
    valid F4 = true ∧ (0:Int) ≤ 50 ∧ (50:Int) < 0 + dPtrMax F4 ∧
    (∃ i, findChunkContaining F4 50 0 = some i ∧ i < arity F4 ∧
      dOff F4 i 0 ≤ 50 ∧ (50:Int) < dOff F4 (i+1) 0 ∧
      (∀ j, j < i → dOff F4 (j+1) 0 ≤ 50)) :=
  ⟨by decide, by decide, by decide,
    C8_findChunkContaining_smallest (by decide) (by decide) (by decide)⟩

/-! ### Claim C9 -/

/-- C9: `valid` accepts a buffer only if its structural invariants hold; in
particular a buffer whose duplicate arity byte (offset `16A+15`) differs
from the arity byte at offset 3, or whose stored 16-bit checksum (offsets
4..5, little-endian) differs from the XOR-folded CRC-32/IEEE of bytes
`[6, 16A+16)`, is rejected. -/
theorem C9_valid_rejects_bad_dup_arity_or_checksum (b : Buf)
    (h : b (16 * arity b + 15) ≠ b 3 ∨
         b 4 + 256 * b 5 ≠ foldedChecksum b % 65536) :
    valid b = false := by
  cases hv : valid b
  · rfl
  · exfalso
    obtain ⟨h1, _, _, _, _, _, h7⟩ := valid_parts hv
    cases h with
    | inl hd =>
      simp only [validHeader, Bool.and_eq_true, beq_iff_eq] at h1
      apply hd
      have he : nodeSize (arity b) - 1 = 16 * arity b + 15 := by
        unfold nodeSize
        omega
      rw [← he]
      exact h1.2.symm
    | inr hc =>
      simp only [validChecksum, Bool.and_eq_true, beq_iff_eq] at h7
      apply hc
      obtain ⟨hc4, hc5⟩ := h7
      rw [hc4, hc5, Nat.shiftRight_eq_div_pow]
      omega

theorem C9_witness :
    (F5 (16 * arity F5 + 15) ≠ F5 3 ∨
      F5 4 + 256 * F5 5 ≠ foldedChecksum F5 % 65536) ∧ valid F5 = false :=
  ⟨Or.inl (by decide),
    C9_valid_rejects_bad_dup_arity_or_checksum F5 (Or.inl (by decide))⟩

/-! ### Claim C10 -/

/-- C10: `u48LE` always returns a value in `[0, 2^48)` (it reads eight bytes
but masks to the low 48 bits); consequently, for every accepted file,
`DecompressedSize` returns a non-negative value strictly below `2^48`, and
every parsed node pointer (`dPtrMax`, `cPtrMax`, DPtr/CPtr entries), being a
`u48LE` read, is non-negative. -/
theorem C10_u48LE_range_bounds_decompressed_size :
    (∀ (b : Buf) (off : Nat), 0 ≤ u48LE b off ∧ u48LE b off < 2^48) ∧
    (∀ (b : Buf), 0 ≤ dPtrMax b ∧ 0 ≤ cPtrMax b) ∧
    (∀ (file : Buf) (csize : Int) (r' : ReaderState) (v : Int),
      DecompressedSize file (initReader csize) = (r', .ok v) →
      0 ≤ v ∧ v < 2^48) := by
  refine ⟨fun b off => ⟨u48LE_nonneg b off, u48LE_lt b off⟩,
    fun b => ⟨u48LE_nonneg _ _, u48LE_nonneg _ _⟩, ?_⟩
  intro file csize r' v h
  unfold DecompressedSize at h
  rcases hI : initialise file (initReader csize) with ⟨r1, e1⟩
  cases e1 with
  | some e => simp only [hI] at h; simp at h
  | none =>
    simp only [hI] at h
    have hv : r1.decompressedSize = v := by simpa using congrArg Prod.snd h
    obtain ⟨⟨_, _, _, _, hdec, -⟩, -⟩ := initialise_ok_of_fresh rfl rfl hI
    rw [← hv, hdec]
    unfold dPtrMax
    exact ⟨u48LE_nonneg _ _, u48LE_lt _ _⟩

theorem C10_witness : 0 ≤ (100:Int) ∧ (100:Int) < 2^48 := by
  have h2 : (DecompressedSize F4 (initReader 32)).2 = Except.ok 100 := by decide
  have h : DecompressedSize F4 (initReader 32) =
      ((DecompressedSize F4 (initReader 32)).1, Except.ok 100) := by
    rw [← h2]
  exact C10_u48LE_range_bounds_decompressed_size.2.2 F4 32 _ 100 h

end Rac
